import Mathlib

/-!
Page manager of the `nspanel_lovelace` component

A shallow embedding of `components/nspanel_lovelace/page_manager.h` and
`page_manager.cpp`, followed by theorems about it.

Conventions of the embedding

* `std::vector<std::unique_ptr<Page>> pages_` is a `List Page`; a `Page*` result is an
  `Option Page` (`none` is `nullptr`).
* `std::unordered_map<uint8_t, size_t> bookmarks_` is an association list
  `List (Nat × Nat)` of `(id, index)` entries.  The container holds each id at most once;
  that property is the predicate `unique_ids`, which every operation preserves.
* `size_t` values are natural numbers; additions and subtractions of the source that can
  leave the range of `size_t` are reduced modulo `SIZE_MOD` (32-bit `size_t`, as on the
  ESP32 and ESP8266 targets of the component).  Decrements that the source guards by a
  strict comparison (`index < current_index_`, `it->second > index`) cannot wrap and are
  plain subtractions.
* An operation that can stop the program (a failed `assert`, or a dereference of a vector
  slot that does not exist) returns an `Option`; `none` means that no state is produced.
-/

namespace nspanel_lovelace

/-- Modelled from the spec: the `Page` class of `page_base.h`, which is not part of the
sources at hand.  The manager uses exactly two read-only queries of a page,
`get_uuid()` and `is_hidden()`. -/
structure Page where
  uuid : String
  hidden : Bool
deriving DecidableEq, Repr

/-- The constant `UINT8_MAX` of `<cstdint>`. -/
def UINT8_MAX : Nat := 255

/-- Number of values of a `size_t` (32 bits). -/
def SIZE_MOD : Nat := 2 ^ 32

/-- The constant `SIZE_MAX` of `<cstdint>`. -/
def SIZE_MAX : Nat := SIZE_MOD - 1

/-- Flag `cycle_mode::none = 1 << 0`. -/
def cycle_mode.none : Nat := 1 <<< 0

/-- Flag `cycle_mode::forward = 1 << 1`. -/
def cycle_mode.forward : Nat := 1 <<< 1

/-- Flag `cycle_mode::backward = 1 << 2`. -/
def cycle_mode.backward : Nat := 1 <<< 2

/-- The data members of `class PageManager`. -/
structure PageManager where
  current_index_ : Nat
  pages_ : List Page
  bookmarks_ : List (Nat × Nat)
deriving DecidableEq, Repr

namespace PageManager

/-- The constructor `PageManager() : current_index_(0)`; `reserve(20)` only sets the
capacity of the vector. -/
def init : PageManager :=
  { current_index_ := 0, pages_ := [], bookmarks_ := [] }

/-- Member `pages_empty()`. -/
def pages_empty (m : PageManager) : Bool := m.pages_.isEmpty

/-- Member `page_count()`. -/
def page_count (m : PageManager) : Nat := m.pages_.length

/-- Member `current_index()`. -/
def current_index (m : PageManager) : Nat := m.current_index_

/-- The lookup `bookmarks_.find(bookmark_id)`: the stored index, if the id is present. -/
def bookmark_find (m : PageManager) (bookmark_id : Nat) : Option Nat :=
  m.bookmarks_.lookup bookmark_id

/-- Each bookmark id occurs at most once, as in every `std::unordered_map`. -/
def unique_ids (m : PageManager) : Prop :=
  (m.bookmarks_.map Prod.fst).Nodup

instance (m : PageManager) : Decidable m.unique_ids := by
  unfold unique_ids; infer_instance

/-- Member `current_page()`.  With a non-empty vector the slot `pages_[current_index_]` is
read without a bounds check; a slot outside the vector holds no page. -/
def current_page (m : PageManager) : Option Page :=
  if m.pages_.isEmpty then none else m.pages_[m.current_index_]?

/-- The test `!pages_[index]->is_hidden()`: the slot holds a page and that page is not
hidden. -/
def not_hidden (m : PageManager) (index : Nat) : Bool :=
  match m.pages_[index]? with
  | some page => !page.hidden
  | none => false

/-- The index that the body of the `for` loop of `cycle_page` computes for loop counter `i`:
`(current_index_ + (mode & cycle_mode::backward ? pages_.size() - i : i)) % pages_.size()`,
the sum being a `size_t`. -/
def cycle_index (m : PageManager) (mode i : Nat) : Nat :=
  (m.current_index_ +
      (if mode &&& cycle_mode.backward ≠ 0 then m.pages_.length - i else i))
    % SIZE_MOD % m.pages_.length

/-- The `for` loop of `cycle_page`, from loop counter `i` on: the first index computed by the
body whose page is not hidden, or `none` when the loop runs to its end.  The last argument
bounds the number of iterations that remain. -/
def cycle_loop (m : PageManager) (mode : Nat) : Nat → Nat → Option Nat
  | _, 0 => none
  | i, fuel + 1 =>
    if i < m.pages_.length then
      let index := m.cycle_index mode i
      if m.not_hidden index then some index
      else cycle_loop m mode (i + 1) fuel
    else none

/-- Member `cycle_page(mode)`.  The last line reads the slot `pages_[original_index]`
without a bounds check; a slot outside the vector holds no page. -/
def cycle_page (m : PageManager) (mode : Nat) : PageManager × Option Page :=
  if m.pages_.isEmpty then (m, none)
  else
    let original_index := m.current_index_
    match cycle_loop m mode (if mode &&& cycle_mode.none ≠ 0 then 0 else 1)
        m.pages_.length with
    | some index => ({ m with current_index_ := index }, m.pages_[index]?)
    | none => (m, m.pages_[original_index]?)

/-- Member `next_page()`. -/
def next_page (m : PageManager) : PageManager × Option Page :=
  m.cycle_page cycle_mode.forward

/-- Member `previous_page()`. -/
def previous_page (m : PageManager) : PageManager × Option Page :=
  m.cycle_page cycle_mode.backward

/-- Member `find_page(size_t index, bool update_current_index)`. -/
def find_page (m : PageManager) (index : Nat) (update_current_index : Bool) :
    PageManager × Option Page :=
  if index ≥ m.pages_.length then (m, none)
  else
    ((if update_current_index then { m with current_index_ := index } else m),
      m.pages_[index]?)

/-- Member `get_page(size_t index)`; `pages_.size() - 1` is computed in `size_t`. -/
def get_page (m : PageManager) (index : Nat) : PageManager × Option Page :=
  let last := (m.pages_.length + SIZE_MOD - 1) % SIZE_MOD
  m.find_page (if index > last then last else index) true

/-- The `for` loop of `find_page_index` and of `delete_page(uuid)`: the first position, counted
from `i`, of a page with the given uuid. -/
def uuid_loop (uuid : String) : List Page → Nat → Option Nat
  | [], _ => none
  | p :: ps, i => if p.uuid = uuid then some i else uuid_loop uuid ps (i + 1)

/-- Member `find_page_index(uuid)`.  The shortcut dereferences `pages_[current_index_]`
without any check: when that slot does not exist the call has no defined result
(`none`).  Otherwise the result is an index or the sentinel `SIZE_MAX`. -/
def find_page_index (m : PageManager) (uuid : String) : Option Nat :=
  match m.pages_[m.current_index_]? with
  | none => none
  | some p =>
    if p.uuid = uuid then some m.current_index_
    else
      match uuid_loop uuid m.pages_ 0 with
      | some i => some i
      | none => some SIZE_MAX

/-- Member `find_page(const std::string& uuid, bool update_current_index)`. -/
def find_page_uuid (m : PageManager) (uuid : String) (update_current_index : Bool) :
    Option (PageManager × Option Page) :=
  match m.find_page_index uuid with
  | none => none
  | some i =>
    if i ≠ SIZE_MAX then
      some ((if update_current_index then { m with current_index_ := i } else m),
        m.pages_[i]?)
    else some (m, none)

/-- Member `has_bookmark(bookmark_id)`. -/
def has_bookmark (m : PageManager) (bookmark_id : Nat) : Bool :=
  (m.bookmark_find bookmark_id).isSome

/-- Member `find_bookmarked_page(bookmark_id, update_current_index)`. -/
def find_bookmarked_page (m : PageManager) (bookmark_id : Nat)
    (update_current_index : Bool) : PageManager × Option Page :=
  if m.page_count = 0 then (m, none)
  else
    match m.bookmark_find bookmark_id with
    | some second =>
      if second < m.pages_.length then
        ((if update_current_index then { m with current_index_ := second } else m),
          m.pages_[second]?)
      else (m, none)
    | none => (m, none)

/-- The assignment `b.first->second = page_index` for the entry of `bookmark_id`. -/
def bookmark_assign (bookmark_id page_index : Nat) :
    List (Nat × Nat) → List (Nat × Nat)
  | [] => []
  | (id, idx) :: rest =>
    if id = bookmark_id then (id, page_index) :: rest
    else (id, idx) :: bookmark_assign bookmark_id page_index rest

/-- Member `bookmark_page(uint8_t bookmark_id, size_t page_index, bool overwrite)`.
`emplace` adds the entry only when the id is absent (`b.second`). -/
def bookmark_page (m : PageManager) (bookmark_id page_index : Nat) (overwrite : Bool) :
    PageManager × Bool :=
  if page_index < m.pages_.length then
    match m.bookmark_find bookmark_id with
    | none =>
      ({ m with bookmarks_ := (bookmark_id, page_index) :: m.bookmarks_ }, true)
    | some _ =>
      if overwrite then
        ({ m with bookmarks_ := bookmark_assign bookmark_id page_index m.bookmarks_ },
          true)
      else (m, false)
  else (m, false)

/-- Member `bookmark_page(uint8_t bookmark_id, const std::string& uuid, bool overwrite)`. -/
def bookmark_page_uuid (m : PageManager) (bookmark_id : Nat) (uuid : String)
    (overwrite : Bool) : Option (PageManager × Bool) :=
  match m.find_page_index uuid with
  | none => none
  | some i =>
    if i = SIZE_MAX then some (m, false)
    else some (m.bookmark_page bookmark_id i overwrite)

/-- The loop `for (auto &[id, idx] : bookmarks_) if (index <= idx) ++idx;` of
`insert_page`. -/
def insert_shift (index : Nat) : List (Nat × Nat) → List (Nat × Nat)
  | [] => []
  | (id, idx) :: rest =>
    (id, if index ≤ idx then (idx + 1) % SIZE_MOD else idx) :: insert_shift index rest

/-- Member template `insert_page<TPage>(index, args...)`; `page` is the object that
`std::make_unique<TPage>(args...)` constructs.  `none` is the failed
`assert(page_count() < UINT8_MAX)`. -/
def insert_page (m : PageManager) (index : Nat) (page : Page) :
    Option (PageManager × Option Page) :=
  if ¬ (m.page_count < UINT8_MAX) then none
  else if index > m.pages_.length then some (m, none)
  else if m.pages_empty then some ({ m with pages_ := m.pages_ ++ [page] }, some page)
  else
    some
      ({ current_index_ :=
            if index ≤ m.current_index_ then (m.current_index_ + 1) % SIZE_MOD
            else m.current_index_
         pages_ := m.pages_.take index ++ page :: m.pages_.drop index
         bookmarks_ := insert_shift index m.bookmarks_ },
        some page)

/-- Member template `create_page<TPage>(args...)`; `none` is the failed
`assert(page_count() < UINT8_MAX)`. -/
def create_page (m : PageManager) (page : Page) : Option (PageManager × Option Page) :=
  if ¬ (m.page_count < UINT8_MAX) then none
  else some ({ m with pages_ := m.pages_ ++ [page] }, some page)

/-- The bookmark loop of `delete_page(size_t index)`: an entry that stores `index` is
erased, an entry that stores a larger index is decremented. -/
def delete_shift (index : Nat) : List (Nat × Nat) → List (Nat × Nat)
  | [] => []
  | (id, second) :: rest =>
    if second = index then delete_shift index rest
    else (id, if second > index then second - 1 else second) :: delete_shift index rest

/-- Member `delete_page(size_t index)`. -/
def delete_page (m : PageManager) (index : Nat) : PageManager :=
  if index ≥ m.pages_.length then m
  else
    let erased : PageManager := { m with pages_ := m.pages_.eraseIdx index }
    if erased.pages_.isEmpty then
      { erased with current_index_ := 0, bookmarks_ := [] }
    else
      let moved : PageManager :=
        if index < erased.current_index_ then
          { erased with current_index_ := erased.current_index_ - 1 }
        else if index = erased.current_index_ then
          (erased.cycle_page (cycle_mode.none ||| cycle_mode.backward)).1
        else erased
      { moved with bookmarks_ := delete_shift index moved.bookmarks_ }

/-- Member `delete_page(const std::string& uuid)`. -/
def delete_page_uuid (m : PageManager) (uuid : String) : PageManager :=
  match uuid_loop uuid m.pages_ 0 with
  | some i => m.delete_page i
  | none => m

end PageManager

/-- A call of a public member function of `PageManager`, with its arguments. -/
inductive Call where
  | create_page (page : Page)
  | insert_page (index : Nat) (page : Page)
  | delete_page (index : Nat)
  | delete_page_uuid (uuid : String)
  | bookmark_page (bookmark_id page_index : Nat) (overwrite : Bool)
  | bookmark_page_uuid (bookmark_id : Nat) (uuid : String) (overwrite : Bool)
  | cycle_page (mode : Nat)
  | next_page
  | previous_page
  | current_page
  | get_page (index : Nat)
  | find_page (index : Nat) (update_current_index : Bool)
  | find_page_uuid (uuid : String) (update_current_index : Bool)
  | find_page_index (uuid : String)
  | has_bookmark (bookmark_id : Nat)
  | find_bookmarked_page (bookmark_id : Nat) (update_current_index : Bool)
deriving DecidableEq, Repr

/-- The state after a call; `none` when the call does not complete. -/
def Call.run (m : PageManager) : Call → Option PageManager
  | .create_page page => (m.create_page page).map Prod.fst
  | .insert_page index page => (m.insert_page index page).map Prod.fst
  | .delete_page index => some (m.delete_page index)
  | .delete_page_uuid uuid => some (m.delete_page_uuid uuid)
  | .bookmark_page id index overwrite => some (m.bookmark_page id index overwrite).1
  | .bookmark_page_uuid id uuid overwrite =>
    (m.bookmark_page_uuid id uuid overwrite).map Prod.fst
  | .cycle_page mode => some (m.cycle_page mode).1
  | .next_page => some m.next_page.1
  | .previous_page => some m.previous_page.1
  | .current_page => some m
  | .get_page index => some (m.get_page index).1
  | .find_page index upd => some (m.find_page index upd).1
  | .find_page_uuid uuid upd => (m.find_page_uuid uuid upd).map Prod.fst
  | .find_page_index uuid => (m.find_page_index uuid).map (fun _ => m)
  | .has_bookmark _ => some m
  | .find_bookmarked_page id upd => some (m.find_bookmarked_page id upd).1

/-- Run a sequence of calls from a state; `none` as soon as one call does not complete. -/
def run_calls (m : PageManager) : List Call → Option PageManager
  | [] => some m
  | c :: cs =>
    match c.run m with
    | some m' => run_calls m' cs
    | none => none

/-- The states a freshly constructed manager can reach through its public members. -/
def Reachable (m : PageManager) : Prop :=
  ∃ calls : List Call, run_calls PageManager.init calls = some m

/-- The structural mutations only: `create_page`, `insert_page` and the two `delete_page`
overloads. -/
def Call.is_structural : Call → Bool
  | .create_page _ => true
  | .insert_page _ _ => true
  | .delete_page _ => true
  | .delete_page_uuid _ => true
  | _ => false

/-- The class invariant that every reachable state satisfies: the 8-bit page ceiling, a
cursor that is at most the page count, bookmarks that store valid indices, and bookmark ids
that occur once. -/
structure Inv (m : PageManager) : Prop where
  count_le : m.pages_.length ≤ UINT8_MAX
  index_le : m.current_index_ ≤ m.pages_.length
  bookmarks_lt : ∀ e ∈ m.bookmarks_, e.2 < m.pages_.length
  unique : m.unique_ids

end nspanel_lovelace

/-! ## Example pages, states and call sequences -/

namespace nspanel_lovelace

/-- A visible page with uuid "A". -/
def page_A : Page := { uuid := "A", hidden := false }

/-- A visible page with uuid "B". -/
def page_B : Page := { uuid := "B", hidden := false }

/-- A visible page with uuid "C". -/
def page_C : Page := { uuid := "C", hidden := false }

/-- A visible page with uuid "X". -/
def page_X : Page := { uuid := "X", hidden := false }

/-- A hidden page with uuid "A". -/
def hidden_A : Page := { uuid := "A", hidden := true }

/-- A hidden page with uuid "B". -/
def hidden_B : Page := { uuid := "B", hidden := true }

/-- Structural calls after which the cursor is out of range: create hidden A, insert hidden
B in front of it (the cursor follows A to index 1), delete index 1. -/
def calls_all_hidden : List Call :=
  [Call.create_page hidden_A, Call.insert_page 0 hidden_B, Call.delete_page 1]

/-- The state that `calls_all_hidden` produces. -/
def state_all_hidden : PageManager :=
  { current_index_ := 1, pages_ := [hidden_B], bookmarks_ := [] }

/-- Calls that leave one page B with bookmark 1 on it: create A and B, bookmark index 1
under id 1, delete index 0. -/
def calls_bookmarked : List Call :=
  [Call.create_page page_A, Call.create_page page_B, Call.bookmark_page 1 1 false,
    Call.delete_page 0]

/-- The state that `calls_bookmarked` produces. -/
def state_bookmarked : PageManager :=
  { current_index_ := 0, pages_ := [page_B], bookmarks_ := [(1, 0)] }

/-- Pages A, B, C with the cursor on B and bookmarks 1 on A, 2 on B, 3 on C. -/
def state_ABC : PageManager :=
  { current_index_ := 1, pages_ := [page_A, page_B, page_C],
    bookmarks_ := [(1, 0), (2, 1), (3, 2)] }

/-- Pages A (visible), B (hidden), C (visible) with the cursor on A. -/
def state_A_hiddenB_C : PageManager :=
  { current_index_ := 0, pages_ := [page_A, hidden_B, page_C], bookmarks_ := [] }

/-- Two hidden pages with the cursor on the first. -/
def state_two_hidden : PageManager :=
  { current_index_ := 0, pages_ := [hidden_A, hidden_B], bookmarks_ := [] }

/-- Pages A and B with bookmark 1 on index 0. -/
def state_AB_bookmarked : PageManager :=
  { current_index_ := 0, pages_ := [page_A, page_B], bookmarks_ := [(1, 0)] }

/-- Calls that fill and empty the manager: create A, bookmark it under id 1, delete it. -/
def calls_emptied : List Call :=
  [Call.create_page page_A, Call.bookmark_page 1 0 false, Call.delete_page 0]

/-- A manager at the page ceiling: 255 pages. -/
def state_full : PageManager :=
  { current_index_ := 0, pages_ := List.replicate 255 page_A, bookmarks_ := [] }

/-- Pages A, B, hidden B, C with the cursor on index 1. -/
def state_A_B_hiddenB_C : PageManager :=
  { current_index_ := 1, pages_ := [page_A, page_B, hidden_B, page_C], bookmarks_ := [] }

end nspanel_lovelace

/-! ## Lemmas on the bookmark table -/

namespace nspanel_lovelace

open PageManager

theorem lookup_mem {id v : Nat} :
    ∀ {l : List (Nat × Nat)}, l.lookup id = some v → (id, v) ∈ l
  | [], h => by simp at h
  | (k, w) :: rest, h => by
    by_cases hk : id = k
    · subst hk
      simp [List.lookup] at h
      simp [h]
    · have hb : (id == k) = false := by simpa using hk
      simp [List.lookup, hb] at h
      exact List.mem_cons_of_mem _ (lookup_mem h)

theorem lookup_eq_none_iff {id : Nat} :
    ∀ {l : List (Nat × Nat)}, l.lookup id = none ↔ id ∉ l.map Prod.fst
  | [] => by simp
  | (k, w) :: rest => by
    by_cases hk : id = k
    · subst hk
      simp [List.lookup]
    · have hb : (id == k) = false := by simpa using hk
      simp only [List.lookup, hb, List.map_cons, List.mem_cons, hk, false_or]
      exact lookup_eq_none_iff

theorem insert_shift_eq_map (index : Nat) (l : List (Nat × Nat)) :
    insert_shift index l =
      l.map (fun e => (e.1, if index ≤ e.2 then (e.2 + 1) % SIZE_MOD else e.2)) := by
  induction l with
  | nil => rfl
  | cons e rest ih => obtain ⟨id, idx⟩ := e; simp [insert_shift, ih]

theorem insert_shift_keys (index : Nat) (l : List (Nat × Nat)) :
    (insert_shift index l).map Prod.fst = l.map Prod.fst := by
  rw [insert_shift_eq_map]; simp [Function.comp_def]

theorem lookup_insert_shift (index id : Nat) (l : List (Nat × Nat)) :
    (insert_shift index l).lookup id =
      (l.lookup id).map (fun idx => if index ≤ idx then (idx + 1) % SIZE_MOD else idx) := by
  induction l with
  | nil => rfl
  | cons e rest ih =>
    obtain ⟨k, w⟩ := e
    by_cases hk : id = k
    · subst hk; simp [insert_shift, List.lookup]
    · have hb : (id == k) = false := by simpa using hk
      simp [insert_shift, List.lookup, hb, ih]

theorem delete_shift_eq_filterMap (index : Nat) (l : List (Nat × Nat)) :
    delete_shift index l =
      l.filterMap (fun e =>
        if e.2 = index then none else some (e.1, if e.2 > index then e.2 - 1 else e.2)) := by
  induction l with
  | nil => rfl
  | cons e rest ih =>
    obtain ⟨id, idx⟩ := e
    by_cases h : idx = index
    · simp [delete_shift, h, ih]
    · simp [delete_shift, h, ih, List.filterMap_cons]

theorem delete_shift_keys_sublist (index : Nat) (l : List (Nat × Nat)) :
    ((delete_shift index l).map Prod.fst).Sublist (l.map Prod.fst) := by
  induction l with
  | nil => simp [delete_shift]
  | cons e rest ih =>
    obtain ⟨id, idx⟩ := e
    by_cases h : idx = index
    · simp only [delete_shift, h, if_true, List.map_cons]
      exact List.Sublist.cons _ (by simpa [h] using ih)
    · simp only [delete_shift, h, if_false, List.map_cons]
      exact List.Sublist.cons₂ _ ih

theorem lookup_delete_shift (index id : Nat) (l : List (Nat × Nat))
    (hl : (l.map Prod.fst).Nodup) :
    (delete_shift index l).lookup id =
      (l.lookup id).bind (fun idx =>
        if idx = index then none else some (if idx > index then idx - 1 else idx)) := by
  induction l with
  | nil => rfl
  | cons e rest ih =>
    obtain ⟨k, w⟩ := e
    simp only [List.map_cons, List.nodup_cons] at hl
    by_cases hk : id = k
    · subst hk
      by_cases hw : w = index
      · have hnone : (delete_shift index rest).lookup id = none :=
          lookup_eq_none_iff.2 (fun hmem => hl.1 ((delete_shift_keys_sublist index rest).subset hmem))
        simp [delete_shift, List.lookup, hw, hnone]
      · simp [delete_shift, List.lookup, hw]
    · have hb : (id == k) = false := by simpa using hk
      by_cases hw : w = index
      · simp [delete_shift, List.lookup, hw, hb, ih hl.2]
      · simp [delete_shift, List.lookup, hw, hb, ih hl.2]

theorem bookmark_assign_keys (id v : Nat) (l : List (Nat × Nat)) :
    (bookmark_assign id v l).map Prod.fst = l.map Prod.fst := by
  induction l with
  | nil => rfl
  | cons e rest ih =>
    obtain ⟨k, w⟩ := e
    by_cases hk : k = id
    · simp [bookmark_assign, hk]
    · simp [bookmark_assign, hk, ih]

theorem mem_bookmark_assign {id v : Nat} {e : Nat × Nat} :
    ∀ {l : List (Nat × Nat)}, e ∈ bookmark_assign id v l → e ∈ l ∨ e = (id, v)
  | [], h => by simp [bookmark_assign] at h
  | (k, w) :: rest, h => by
    by_cases hk : k = id
    · simp only [bookmark_assign, hk, if_true, List.mem_cons] at h
      rcases h with h | h
      · exact Or.inr h
      · exact Or.inl (List.mem_cons_of_mem _ h)
    · simp only [bookmark_assign, hk, if_false, List.mem_cons] at h
      rcases h with h | h
      · exact Or.inl (h ▸ List.mem_cons_self _ _)
      · rcases mem_bookmark_assign h with h' | h'
        · exact Or.inl (List.mem_cons_of_mem _ h')
        · exact Or.inr h'

theorem lookup_bookmark_assign (id v k : Nat) (l : List (Nat × Nat)) :
    (bookmark_assign id v l).lookup k =
      if k = id then (l.lookup k).map (fun _ => v) else l.lookup k := by
  induction l with
  | nil => simp [bookmark_assign]
  | cons e rest ih =>
    obtain ⟨a, w⟩ := e
    by_cases ha : a = id
    · subst ha
      by_cases hk : k = a
      · subst hk; simp [bookmark_assign, List.lookup]
      · have hb : (k == a) = false := by simpa using hk
        simp [bookmark_assign, List.lookup, hb, hk]
    · by_cases hk : k = a
      · subst hk
        simp [bookmark_assign, List.lookup, ha]
      · have hb : (k == a) = false := by simpa using hk
        simp [bookmark_assign, List.lookup, ha, hb, ih]

end nspanel_lovelace

/-! ## Frame lemmas and the class invariant -/

namespace nspanel_lovelace

open PageManager

theorem cycle_loop_lt (m : PageManager) (mode : Nat) :
    ∀ (fuel i index : Nat), cycle_loop m mode i fuel = some index → index < m.pages_.length
  | 0, _, _, h => by simp [cycle_loop] at h
  | fuel + 1, i, index, h => by
    unfold cycle_loop at h
    by_cases hi : i < m.pages_.length
    · have hpos : 0 < m.pages_.length := by omega
      simp only [hi, if_true] at h
      by_cases hv : m.not_hidden (m.cycle_index mode i) = true
      · simp only [hv, if_true] at h
        rw [← Option.some.inj h]
        exact Nat.mod_lt _ hpos
      · simp only [hv, if_false] at h
        exact cycle_loop_lt m mode fuel (i + 1) index h
    · simp [hi] at h

theorem cycle_page_pages (m : PageManager) (mode : Nat) :
    (m.cycle_page mode).1.pages_ = m.pages_ := by
  unfold cycle_page
  split
  · rfl
  · split <;> rfl

theorem cycle_page_bookmarks (m : PageManager) (mode : Nat) :
    (m.cycle_page mode).1.bookmarks_ = m.bookmarks_ := by
  unfold cycle_page
  split
  · rfl
  · split <;> rfl

theorem cycle_page_index (m : PageManager) (mode : Nat) :
    (m.cycle_page mode).1.current_index_ = m.current_index_ ∨
      (m.cycle_page mode).1.current_index_ < m.pages_.length := by
  unfold cycle_page
  split
  · exact Or.inl rfl
  · split
    · rename_i index h
      exact Or.inr (cycle_loop_lt m mode _ _ index h)
    · exact Or.inl rfl

theorem uuid_loop_lt (uuid : String) :
    ∀ (ps : List Page) (i j : Nat), uuid_loop uuid ps i = some j → j < i + ps.length
  | [], _, _, h => by simp [uuid_loop] at h
  | p :: ps, i, j, h => by
    unfold uuid_loop at h
    split at h
    · have := Option.some.inj h
      simp only [List.length_cons]; omega
    · have := uuid_loop_lt uuid ps (i + 1) j h
      simp only [List.length_cons]; omega

theorem find_page_index_lt (m : PageManager) (uuid : String) (i : Nat)
    (h : m.find_page_index uuid = some i) (hi : i ≠ SIZE_MAX) : i < m.pages_.length := by
  unfold find_page_index at h
  split at h
  · simp at h
  · rename_i p hp
    split at h
    · have := Option.some.inj h
      have hlt := (List.getElem?_eq_some_iff.1 hp).1
      omega
    · split at h
      · rename_i j hj
        have := Option.some.inj h
        have := uuid_loop_lt uuid m.pages_ 0 j hj
        omega
      · exact absurd (Option.some.inj h).symm hi

theorem Inv.init : Inv PageManager.init :=
  ⟨by simp [PageManager.init], by simp [PageManager.init], by simp [PageManager.init],
    by simp [PageManager.init, unique_ids]⟩

theorem Inv.set_index {m : PageManager} (h : Inv m) {i : Nat} (hi : i ≤ m.pages_.length) :
    Inv { m with current_index_ := i } :=
  ⟨h.count_le, hi, h.bookmarks_lt, h.unique⟩

theorem Inv.cycle_page {m : PageManager} (h : Inv m) (mode : Nat) :
    Inv (m.cycle_page mode).1 := by
  refine ⟨?_, ?_, ?_, ?_⟩
  · rw [cycle_page_pages]; exact h.count_le
  · rw [cycle_page_pages]
    rcases cycle_page_index m mode with h' | h'
    · rw [h']; exact h.index_le
    · omega
  · rw [cycle_page_pages, cycle_page_bookmarks]; exact h.bookmarks_lt
  · unfold unique_ids; rw [cycle_page_bookmarks]; exact h.unique

theorem Inv.find_page {m : PageManager} (h : Inv m) (index : Nat) (upd : Bool) :
    Inv (m.find_page index upd).1 := by
  unfold PageManager.find_page
  split
  · exact h
  · cases upd
    · exact h
    · exact h.set_index (by omega)

theorem Inv.get_page {m : PageManager} (h : Inv m) (index : Nat) :
    Inv (m.get_page index).1 := by
  unfold PageManager.get_page
  exact h.find_page _ _

theorem Inv.find_bookmarked_page {m : PageManager} (h : Inv m) (id : Nat) (upd : Bool) :
    Inv (m.find_bookmarked_page id upd).1 := by
  unfold PageManager.find_bookmarked_page
  split
  · exact h
  · split
    · split
      · cases upd
        · exact h
        · exact h.set_index (by omega)
      · exact h
    · exact h

theorem Inv.find_page_uuid {m m' : PageManager} (h : Inv m) (uuid : String) (upd : Bool)
    (r : Option Page) (hr : m.find_page_uuid uuid upd = some (m', r)) : Inv m' := by
  unfold PageManager.find_page_uuid at hr
  split at hr
  · simp at hr
  · rename_i i hi
    split at hr
    · rename_i hne
      have hlt := find_page_index_lt m uuid i hi hne
      have := (Prod.mk.inj (Option.some.inj hr)).1
      rw [← this]
      cases upd
      · exact h
      · exact h.set_index (by omega)
    · have := (Prod.mk.inj (Option.some.inj hr)).1
      rw [← this]; exact h

theorem Inv.bookmark_page {m : PageManager} (h : Inv m) (id index : Nat) (ow : Bool) :
    Inv (m.bookmark_page id index ow).1 := by
  unfold PageManager.bookmark_page
  split
  · rename_i hlt
    split
    · rename_i hnone
      refine ⟨h.count_le, h.index_le, ?_, ?_⟩
      · intro e he
        rcases List.mem_cons.1 he with he | he
        · rw [he]; exact hlt
        · exact h.bookmarks_lt e he
      · simp only [unique_ids, List.map_cons, List.nodup_cons]
        exact ⟨lookup_eq_none_iff.1 hnone, h.unique⟩
    · cases ow
      · exact h
      · refine ⟨h.count_le, h.index_le, ?_, ?_⟩
        · intro e he
          rcases mem_bookmark_assign he with he | he
          · exact h.bookmarks_lt e he
          · rw [he]; exact hlt
        · simp only [unique_ids, if_true]
          rw [bookmark_assign_keys]; exact h.unique
  · exact h

theorem Inv.bookmark_page_uuid {m m' : PageManager} (h : Inv m) (id : Nat) (uuid : String)
    (ow b : Bool) (hr : m.bookmark_page_uuid id uuid ow = some (m', b)) : Inv m' := by
  unfold PageManager.bookmark_page_uuid at hr
  split at hr
  · simp at hr
  · split at hr
    · have := (Prod.mk.inj (Option.some.inj hr)).1
      rw [← this]; exact h
    · have := congrArg Prod.fst (Option.some.inj hr)
      simp only at this
      rw [← this]; exact h.bookmark_page _ _ _

theorem Inv.create_page {m m' : PageManager} (h : Inv m) (page : Page) (r : Option Page)
    (hr : m.create_page page = some (m', r)) : Inv m' := by
  unfold PageManager.create_page at hr
  split at hr
  · simp at hr
  · rename_i hc
    have hc' : m.pages_.length < UINT8_MAX := by simpa [page_count] using hc
    have := (Prod.mk.inj (Option.some.inj hr)).1
    rw [← this]
    refine ⟨?_, ?_, ?_, h.unique⟩
    · simp only [List.length_append, List.length_singleton]; omega
    · simp only [List.length_append, List.length_singleton]; have := h.index_le; omega
    · intro e he
      have := h.bookmarks_lt e he
      simp only [List.length_append, List.length_singleton]; omega

theorem Inv.insert_page {m m' : PageManager} (h : Inv m) (index : Nat) (page : Page)
    (r : Option Page) (hr : m.insert_page index page = some (m', r)) : Inv m' := by
  unfold PageManager.insert_page at hr
  split at hr
  · simp at hr
  · rename_i hc
    have hc' : m.pages_.length < UINT8_MAX := by simpa [page_count] using hc
    split at hr
    · have := (Prod.mk.inj (Option.some.inj hr)).1
      rw [← this]; exact h
    · rename_i hidx
      have hidx' : index ≤ m.pages_.length := by omega
      split at hr
      · have := (Prod.mk.inj (Option.some.inj hr)).1
        rw [← this]
        refine ⟨?_, ?_, ?_, h.unique⟩
        · simp only [List.length_append, List.length_singleton]; omega
        · simp only [List.length_append, List.length_singleton]; have := h.index_le; omega
        · intro e he
          have := h.bookmarks_lt e he
          simp only [List.length_append, List.length_singleton]; omega
      · have := (Prod.mk.inj (Option.some.inj hr)).1
        rw [← this]
        have hlen : (m.pages_.take index ++ page :: m.pages_.drop index).length
            = m.pages_.length + 1 := by
          simp only [List.length_append, List.length_take, List.length_cons,
            List.length_drop]
          omega
        have hU : UINT8_MAX = 255 := rfl
        have hS : SIZE_MOD = 4294967296 := by decide
        refine ⟨?_, ?_, ?_, ?_⟩
        · show (m.pages_.take index ++ page :: m.pages_.drop index).length ≤ UINT8_MAX
          rw [hlen]; omega
        · show (if index ≤ m.current_index_ then (m.current_index_ + 1) % SIZE_MOD
              else m.current_index_)
              ≤ (m.pages_.take index ++ page :: m.pages_.drop index).length
          rw [hlen]
          have := h.index_le
          split
          · exact le_trans (Nat.mod_le _ _) (by omega)
          · omega
        · intro e he
          show e.2 < (m.pages_.take index ++ page :: m.pages_.drop index).length
          rw [hlen]
          have he' : e ∈ insert_shift index m.bookmarks_ := he
          rw [insert_shift_eq_map] at he'
          obtain ⟨e0, he0, rfl⟩ := List.mem_map.1 he'
          have := h.bookmarks_lt e0 he0
          simp only
          split
          · exact lt_of_le_of_lt (Nat.mod_le _ _) (by omega)
          · omega
        · show ((insert_shift index m.bookmarks_).map Prod.fst).Nodup
          rw [insert_shift_keys]; exact h.unique

theorem Inv.delete_page {m : PageManager} (h : Inv m) (index : Nat) :
    Inv (m.delete_page index) := by
  unfold PageManager.delete_page
  split
  · exact h
  · rename_i hidx
    have hidx' : index < m.pages_.length := by omega
    have hlen : (m.pages_.eraseIdx index).length = m.pages_.length - 1 := by
      rw [List.length_eraseIdx]; simp [hidx']
    simp only
    split
    · rename_i he
      have he' : (m.pages_.eraseIdx index).length = 0 := by
        rw [List.isEmpty_iff.1 he]; rfl
      exact ⟨by simp [he'], by simp, by simp, by simp [unique_ids]⟩
    · have hcount := h.count_le
      have hcur := h.index_le
      have key : ∀ moved : PageManager, moved.pages_ = m.pages_.eraseIdx index →
          moved.bookmarks_ = m.bookmarks_ → moved.current_index_ ≤ m.pages_.length - 1 →
          Inv { moved with bookmarks_ := delete_shift index moved.bookmarks_ } := by
        intro moved hp hb hc
        refine ⟨?_, ?_, ?_, ?_⟩
        · show moved.pages_.length ≤ UINT8_MAX
          rw [hp, hlen]; omega
        · show moved.current_index_ ≤ moved.pages_.length
          rw [hp, hlen]; exact hc
        · intro e he
          show e.2 < moved.pages_.length
          rw [hp, hlen]
          have he' : e ∈ delete_shift index moved.bookmarks_ := he
          rw [hb, delete_shift_eq_filterMap] at he'
          obtain ⟨e0, he0, hf⟩ := List.mem_filterMap.1 he'
          have := h.bookmarks_lt e0 he0
          split at hf
          · simp at hf
          · rename_i hne
            have := Option.some.inj hf
            rw [← this]
            simp only
            split <;> omega
        · show ((delete_shift index moved.bookmarks_).map Prod.fst).Nodup
          rw [hb]
          exact List.Nodup.sublist (delete_shift_keys_sublist index _) h.unique
      apply key
      · split
        · rfl
        · split
          · exact cycle_page_pages _ _
          · rfl
      · split
        · rfl
        · split
          · exact cycle_page_bookmarks _ _
          · rfl
      · split
        · simp only; omega
        · split
          · rename_i h1 h2
            rcases cycle_page_index { m with pages_ := m.pages_.eraseIdx index }
                (cycle_mode.none ||| cycle_mode.backward) with h' | h'
            · rw [h']; simp only at h2 ⊢; omega
            · simp only [hlen] at h'; omega
          · simp only at *; omega

theorem Inv.delete_page_uuid {m : PageManager} (h : Inv m) (uuid : String) :
    Inv (m.delete_page_uuid uuid) := by
  unfold PageManager.delete_page_uuid
  split
  · exact h.delete_page _
  · exact h

theorem Inv.run {m m' : PageManager} (h : Inv m) (c : Call) (hr : c.run m = some m') :
    Inv m' := by
  cases c with
  | create_page page =>
    simp only [Call.run, Option.map_eq_some'] at hr
    obtain ⟨⟨m1, r⟩, h1, rfl⟩ := hr
    exact h.create_page page r h1
  | insert_page index page =>
    simp only [Call.run, Option.map_eq_some'] at hr
    obtain ⟨⟨m1, r⟩, h1, rfl⟩ := hr
    exact h.insert_page index page r h1
  | delete_page index =>
    simp only [Call.run, Option.some.injEq] at hr
    rw [← hr]; exact h.delete_page index
  | delete_page_uuid uuid =>
    simp only [Call.run, Option.some.injEq] at hr
    rw [← hr]; exact h.delete_page_uuid uuid
  | bookmark_page id index ow =>
    simp only [Call.run, Option.some.injEq] at hr
    rw [← hr]; exact h.bookmark_page id index ow
  | bookmark_page_uuid id uuid ow =>
    simp only [Call.run, Option.map_eq_some'] at hr
    obtain ⟨⟨m1, r⟩, h1, rfl⟩ := hr
    exact h.bookmark_page_uuid id uuid ow r h1
  | cycle_page mode =>
    simp only [Call.run, Option.some.injEq] at hr
    rw [← hr]; exact h.cycle_page mode
  | next_page =>
    simp only [Call.run, Option.some.injEq] at hr
    rw [← hr]; exact h.cycle_page _
  | previous_page =>
    simp only [Call.run, Option.some.injEq] at hr
    rw [← hr]; exact h.cycle_page _
  | current_page =>
    simp only [Call.run, Option.some.injEq] at hr
    rw [← hr]; exact h
  | get_page index =>
    simp only [Call.run, Option.some.injEq] at hr
    rw [← hr]; exact h.get_page index
  | find_page index upd =>
    simp only [Call.run, Option.some.injEq] at hr
    rw [← hr]; exact h.find_page index upd
  | find_page_uuid uuid upd =>
    simp only [Call.run, Option.map_eq_some'] at hr
    obtain ⟨⟨m1, r⟩, h1, rfl⟩ := hr
    exact h.find_page_uuid uuid upd r h1
  | find_page_index uuid =>
    simp only [Call.run, Option.map_eq_some'] at hr
    obtain ⟨_, _, rfl⟩ := hr
    exact h
  | has_bookmark id =>
    simp only [Call.run, Option.some.injEq] at hr
    rw [← hr]; exact h
  | find_bookmarked_page id upd =>
    simp only [Call.run, Option.some.injEq] at hr
    rw [← hr]; exact h.find_bookmarked_page id upd

theorem Inv.run_calls :
    ∀ (calls : List Call) {m m' : PageManager}, Inv m → run_calls m calls = some m' → Inv m'
  | [], m, m', h, hr => by
    simp only [nspanel_lovelace.run_calls, Option.some.injEq] at hr
    rw [← hr]; exact h
  | c :: cs, m, m', h, hr => by
    simp only [nspanel_lovelace.run_calls] at hr
    split at hr
    · rename_i m1 h1
      exact Inv.run_calls cs (h.run c h1) hr
    · simp at hr

theorem Inv.of_reachable {m : PageManager} (h : Reachable m) : Inv m := by
  obtain ⟨calls, hc⟩ := h
  exact Inv.run_calls calls Inv.init hc

end nspanel_lovelace

/-! ## Cursor and bookmark validity -/

namespace nspanel_lovelace

open PageManager

/-- C1 (the code breaks the invariant): from a fresh manager, `create_page` of a hidden
page A, `insert_page(0, B)` of a hidden page B and `delete_page(1)` all complete, and leave
one page while `current_index` is 1, so `current_index < page_count` fails on a non-empty
collection.  `delete_page` removed the current, last page and `cycle_page` found no visible
page to move the cursor to. -/
theorem C1_delete_current_last_page_all_hidden :
    calls_all_hidden.all Call.is_structural = true ∧
      run_calls PageManager.init calls_all_hidden = some state_all_hidden ∧
      state_all_hidden.pages_ ≠ [] ∧
      ¬ (state_all_hidden.current_index < state_all_hidden.page_count) := by
  decide

/-- C2: in every state reachable from a fresh manager through the public members, every
index stored in the bookmark table is below `page_count`, and `find_bookmarked_page` of an
id that is present returns the page held at the stored index (a page of the current
collection), whatever the `update_current_index` flag. -/
theorem C2_reachable_bookmarks_valid (m : PageManager) (h : Reachable m) :
    (∀ e ∈ m.bookmarks_, e.2 < m.page_count) ∧
      ∀ id second : Nat, m.bookmark_find id = some second →
        second < m.page_count ∧
          ∀ upd : Bool, ∃ page : Page,
            m.pages_[second]? = some page ∧ (m.find_bookmarked_page id upd).2 = some page := by
  have hinv := Inv.of_reachable h
  refine ⟨hinv.bookmarks_lt, ?_⟩
  intro id second hfind
  have hlt : second < m.pages_.length := hinv.bookmarks_lt _ (lookup_mem hfind)
  refine ⟨hlt, ?_⟩
  intro upd
  refine ⟨m.pages_[second], ?_, ?_⟩
  · exact List.getElem?_eq_getElem hlt
  · have hne : ¬ m.page_count = 0 := by unfold page_count; omega
    unfold find_bookmarked_page
    simp only [hne, if_false, hfind, hlt, if_true]
    exact List.getElem?_eq_getElem hlt

/-- Witness of C2: the state after creating pages A and B, bookmarking index 1 under id 1
and deleting page 0. -/
theorem C2_reachable_bookmarks_valid_witness :
    Reachable state_bookmarked ∧
      ((∀ e ∈ state_bookmarked.bookmarks_, e.2 < state_bookmarked.page_count) ∧
        ∀ id second : Nat, state_bookmarked.bookmark_find id = some second →
          second < state_bookmarked.page_count ∧
            ∀ upd : Bool, ∃ page : Page,
              state_bookmarked.pages_[second]? = some page ∧
                (state_bookmarked.find_bookmarked_page id upd).2 = some page) :=
  ⟨⟨calls_bookmarked, by decide⟩,
    C2_reachable_bookmarks_valid state_bookmarked ⟨calls_bookmarked, by decide⟩⟩

end nspanel_lovelace

/-! ## Structural mutations -/

namespace nspanel_lovelace

open PageManager

theorem insert_page_eq (m : PageManager) (index : Nat) (page : Page)
    (hne : m.pages_ ≠ []) (hn : m.page_count < UINT8_MAX) (hidx : index ≤ m.page_count) :
    m.insert_page index page =
      some
        ({ current_index_ :=
              if index ≤ m.current_index_ then (m.current_index_ + 1) % SIZE_MOD
              else m.current_index_
           pages_ := m.pages_.take index ++ page :: m.pages_.drop index
           bookmarks_ := insert_shift index m.bookmarks_ },
          some page) := by
  have h1 : ¬ index > m.pages_.length := by unfold page_count at hidx; omega
  have h2 : m.pages_empty = false := by
    cases hp : m.pages_ with
    | nil => exact absurd hp hne
    | cons a l => simp [pages_empty, hp]
  simp [PageManager.insert_page, hn, h1, h2]

theorem getElem?_insert (l : List Page) (index : Nat) (page : Page) (hidx : index ≤ l.length)
    (j : Nat) :
    (l.take index ++ page :: l.drop index)[j]? =
      if j < index then l[j]? else if j = index then some page else l[j - 1]? := by
  have hlen : (l.take index).length = index := by simp [List.length_take]; omega
  rw [List.getElem?_append, hlen]
  by_cases h1 : j < index
  · simp [h1, List.getElem?_take]
  · simp only [h1, if_false]
    by_cases h2 : j = index
    · simp [h2]
    · have h3 : j - index = (j - index - 1) + 1 := by omega
      rw [h3, List.getElem?_cons_succ, List.getElem?_drop]
      simp only [h2, if_false]
      congr 1
      omega

/-- C3: on a non-empty manager below the page ceiling, `insert_page(index, ...)` with
`index <= page_count` returns the new page, places it at position `index`, keeps the pages
before `index` and moves the pages from `index` on up by one; `current_index` becomes
`current_index + 1` when `index <= current_index` and is unchanged otherwise; a bookmark
that stores an index `>= index` stores one more afterwards, every other bookmark is
unchanged, and the same ids are bookmarked.  On an empty manager `insert_page(0, ...)`
yields the one-page sequence and leaves `current_index` and the bookmarks as they are.
The stored `size_t` values are taken below `SIZE_MAX`, so that the increments do not
wrap. -/
theorem C3_insert_page (m : PageManager) (index : Nat) (page : Page)
    (hn : m.page_count < UINT8_MAX) (hidx : index ≤ m.page_count) :
    ∃ m' : PageManager,
      m.insert_page index page = some (m', some page) ∧
        m'.page_count = m.page_count + 1 ∧
        m'.pages_[index]? = some page ∧
        (∀ j, j < index → m'.pages_[j]? = m.pages_[j]?) ∧
        (∀ j, index ≤ j → m'.pages_[j + 1]? = m.pages_[j]?) ∧
        (m.pages_ ≠ [] → m.current_index_ < SIZE_MAX →
          m'.current_index_ =
            if index ≤ m.current_index_ then m.current_index_ + 1 else m.current_index_) ∧
        (m.pages_ ≠ [] →
          (∀ e ∈ m.bookmarks_, e.2 < SIZE_MAX) →
          ∀ id, m'.bookmark_find id =
              (m.bookmark_find id).map
                (fun second => if index ≤ second then second + 1 else second)) ∧
        (m.pages_ ≠ [] → ∀ id, m'.has_bookmark id = m.has_bookmark id) ∧
        (m.pages_ = [] →
          m' = { m with pages_ := [page] }) := by
  have hS : SIZE_MAX + 1 = SIZE_MOD := by decide
  by_cases hne : m.pages_ = []
  · have hidx0 : index = 0 := by
      unfold page_count at hidx; rw [hne] at hidx; simpa using hidx
    subst hidx0
    refine ⟨{ m with pages_ := [page] }, ?_, ?_, ?_, ?_, ?_, ?_, ?_, ?_, ?_⟩
    · have hn' : m.pages_.length < UINT8_MAX := hn
      simp [PageManager.insert_page, page_count, pages_empty, hne, hn', UINT8_MAX]
    · simp [page_count, hne]
    · simp
    · intro j hj; omega
    · intro j _; simp [hne]
    · intro h; exact absurd hne h
    · intro h; exact absurd hne h
    · intro h; exact absurd hne h
    · intro _; rfl
  · refine ⟨_, insert_page_eq m index page hne hn hidx, ?_, ?_, ?_, ?_, ?_, ?_, ?_, ?_⟩
    · simp only [page_count, List.length_append, List.length_take, List.length_cons,
        List.length_drop]
      unfold page_count at hidx
      omega
    · show (m.pages_.take index ++ page :: m.pages_.drop index)[index]? = some page
      rw [getElem?_insert _ _ _ hidx]; simp
    · intro j hj
      show (m.pages_.take index ++ page :: m.pages_.drop index)[j]? = m.pages_[j]?
      rw [getElem?_insert _ _ _ hidx]; simp [hj]
    · intro j hj
      show (m.pages_.take index ++ page :: m.pages_.drop index)[j + 1]? = m.pages_[j]?
      rw [getElem?_insert _ _ _ hidx]
      have h1 : ¬ j + 1 < index := by omega
      have h2 : ¬ j + 1 = index := by omega
      simp [h1, h2]
    · intro _ hc
      show (if index ≤ m.current_index_ then (m.current_index_ + 1) % SIZE_MOD
          else m.current_index_) = _
      split
      · exact Nat.mod_eq_of_lt (by omega)
      · rfl
    · intro _ hb id
      show (insert_shift index m.bookmarks_).lookup id = _
      rw [lookup_insert_shift]
      cases hf : m.bookmark_find id with
      | none =>
        have hf' : List.lookup id m.bookmarks_ = none := hf
        simp [hf']
      | some second =>
        have hf' : List.lookup id m.bookmarks_ = some second := hf
        have hlt := hb _ (lookup_mem hf')
        simp only [hf', Option.map_some']
        split
        · rw [Nat.mod_eq_of_lt (by omega)]
        · rfl
    · intro _ id
      show ((insert_shift index m.bookmarks_).lookup id).isSome = _
      rw [lookup_insert_shift]
      simp [has_bookmark, bookmark_find]
    · intro h; exact absurd h hne

/-- Witness of C3: inserting X at index 1 into A, B, C (cursor on B, bookmarks on all
three). -/
theorem C3_insert_page_witness :
    state_ABC.page_count < UINT8_MAX ∧ 1 ≤ state_ABC.page_count ∧
      ∃ m' : PageManager,
        state_ABC.insert_page 1 page_X = some (m', some page_X) ∧
          m'.pages_ = [page_A, page_X, page_B, page_C] ∧
          m'.current_index_ = 2 ∧
          m'.bookmark_find 1 = some 0 ∧ m'.bookmark_find 2 = some 2 ∧
          m'.bookmark_find 3 = some 3 := by
  refine ⟨by decide, by decide, ?_⟩
  obtain ⟨m', h1, _, _, _, _, h6, h7, _, _⟩ :=
    C3_insert_page state_ABC 1 page_X (by decide) (by decide)
  have hm : m' = (⟨2, [page_A, page_X, page_B, page_C], [(1, 0), (2, 2), (3, 3)]⟩ :
      PageManager) := by
    have h1' : state_ABC.insert_page 1 page_X =
        some ((⟨2, [page_A, page_X, page_B, page_C], [(1, 0), (2, 2), (3, 3)]⟩ :
          PageManager), some page_X) := by decide
    rw [h1'] at h1
    exact ((Prod.mk.inj (Option.some.inj h1)).1).symm
  refine ⟨m', h1, ?_, ?_, ?_, ?_, ?_⟩
  · rw [hm]
  · rw [h6 (by decide) (by decide)]; decide
  · rw [h7 (by decide) (by decide) 1]; decide
  · rw [h7 (by decide) (by decide) 2]; decide
  · rw [h7 (by decide) (by decide) 3]; decide

end nspanel_lovelace

namespace nspanel_lovelace

open PageManager

theorem delete_page_of_lt (m : PageManager) (index : Nat) (h2 : 2 ≤ m.page_count)
    (hidx : index < m.page_count) :
    (m.delete_page index).pages_ = m.pages_.eraseIdx index ∧
      (m.delete_page index).bookmarks_ = delete_shift index m.bookmarks_ ∧
      (m.delete_page index).current_index_ =
        if index < m.current_index_ then m.current_index_ - 1
        else if index = m.current_index_ then
          (({ m with pages_ := m.pages_.eraseIdx index } : PageManager).cycle_page
            (cycle_mode.none ||| cycle_mode.backward)).1.current_index_
        else m.current_index_ := by
  unfold page_count at h2 hidx
  have h1 : ¬ index ≥ m.pages_.length := by omega
  have hlen : (m.pages_.eraseIdx index).length = m.pages_.length - 1 := by
    rw [List.length_eraseIdx]; simp [hidx]
  have hemp : (m.pages_.eraseIdx index).isEmpty = false := by
    cases hp : m.pages_.eraseIdx index with
    | nil => rw [hp] at hlen; simp at hlen; omega
    | cons a l => rfl
  unfold PageManager.delete_page
  simp only [h1, if_false, hemp, Bool.false_eq_true]
  refine ⟨?_, ?_, ?_⟩
  · show PageManager.pages_ (ite _ _ _) = _
    split
    · rfl
    · split
      · exact cycle_page_pages _ _
      · rfl
  · show delete_shift index (PageManager.bookmarks_ (ite _ _ _)) = _
    congr 1
    split
    · rfl
    · split
      · exact cycle_page_bookmarks _ _
      · rfl
  · show PageManager.current_index_ (ite _ _ _) = _
    split
    · rfl
    · split <;> rfl

theorem find_bookmarked_page_snd (m : PageManager) (id : Nat) (upd : Bool) :
    (m.find_bookmarked_page id upd).2 =
      (m.bookmark_find id).bind (fun second => m.pages_[second]?) := by
  unfold find_bookmarked_page
  by_cases h0 : m.page_count = 0
  · have hp : m.pages_ = [] := List.length_eq_zero.1 h0
    simp only [h0, if_true]
    cases m.bookmark_find id <;> simp [hp]
  · simp only [h0, if_false]
    cases hf : m.bookmark_find id with
    | none => rfl
    | some second =>
      simp only [Option.some_bind]
      by_cases hlt : second < m.pages_.length
      · simp [hlt]
      · simp only [hlt, if_false]
        exact (List.getElem?_eq_none (by omega)).symm

/-- C4: on a manager with at least two pages, `delete_page(index)` with
`index < page_count` removes every bookmark that stored `index`, stores one less for every
bookmark that stored a larger index, leaves every bookmark that stored a smaller index,
adds no bookmark, and every id that is still bookmarked resolves through
`find_bookmarked_page` to the page it resolved to before the call. -/
theorem C4_delete_page_bookmarks (m : PageManager) (index : Nat) (h2 : 2 ≤ m.page_count)
    (hidx : index < m.page_count) (hu : m.unique_ids) :
    (∀ id, m.bookmark_find id = some index → (m.delete_page index).bookmark_find id = none) ∧
      (∀ id second, m.bookmark_find id = some second → index < second →
        (m.delete_page index).bookmark_find id = some (second - 1)) ∧
      (∀ id second, m.bookmark_find id = some second → second < index →
        (m.delete_page index).bookmark_find id = some second) ∧
      (∀ id, m.bookmark_find id = none → (m.delete_page index).bookmark_find id = none) ∧
      (∀ id upd upd', (m.delete_page index).has_bookmark id = true →
        ((m.delete_page index).find_bookmarked_page id upd).2 =
          (m.find_bookmarked_page id upd').2) := by
  obtain ⟨hp, hb, _⟩ := delete_page_of_lt m index h2 hidx
  have hfind : ∀ id, (m.delete_page index).bookmark_find id =
      (m.bookmark_find id).bind (fun second =>
        if second = index then none
        else some (if second > index then second - 1 else second)) := by
    intro id
    unfold bookmark_find
    rw [hb]
    exact lookup_delete_shift index id m.bookmarks_ hu
  refine ⟨?_, ?_, ?_, ?_, ?_⟩
  · intro id h; rw [hfind, h]; simp
  · intro id second h hlt
    rw [hfind, h]
    have h1 : ¬ second = index := by omega
    simp [h1, hlt]
  · intro id second h hlt
    rw [hfind, h]
    have h1 : ¬ second = index := by omega
    have h3 : ¬ second > index := by omega
    simp [h1, h3]
  · intro id h; rw [hfind, h]; rfl
  · intro id upd upd' hhas
    rw [find_bookmarked_page_snd, find_bookmarked_page_snd, hfind, hp]
    unfold has_bookmark at hhas
    rw [hfind] at hhas
    cases hf : m.bookmark_find id with
    | none => rfl
    | some second =>
      rw [hf] at hhas
      by_cases h1 : second = index
      · simp [h1] at hhas
      · simp only [Option.some_bind, h1, if_false]
        rw [List.getElem?_eraseIdx]
        by_cases h3 : second > index
        · have h4 : ¬ second - 1 < index := by omega
          simp only [h3, if_true, h4, if_false]
          congr 1; omega
        · have h4 : second < index := by omega
          simp [h3, h4]

/-- Witness of C4: deleting page 1 of A, B, C, which carry bookmarks 1, 2 and 3. -/
theorem C4_delete_page_bookmarks_witness :
    (2 ≤ state_ABC.page_count ∧ 1 < state_ABC.page_count ∧ state_ABC.unique_ids) ∧
      (state_ABC.delete_page 1).bookmark_find 2 = none ∧
      (state_ABC.delete_page 1).bookmark_find 3 = some 1 ∧
      (state_ABC.delete_page 1).bookmark_find 1 = some 0 ∧
      ((state_ABC.delete_page 1).find_bookmarked_page 3 false).2 =
        (state_ABC.find_bookmarked_page 3 false).2 := by
  have h := C4_delete_page_bookmarks state_ABC 1 (by decide) (by decide) (by decide)
  exact ⟨by decide, h.1 2 (by decide), h.2.1 3 2 (by decide) (by decide),
    h.2.2.1 1 0 (by decide) (by decide), h.2.2.2.2 3 false false (by decide)⟩

/-- C5: on a non-empty manager whose cursor is in range, a structural mutation that does
not remove the current page keeps the cursor on the same page: `insert_page` at any
`index <= page_count` and `create_page` (both below the page ceiling, where they return the
new page), and `delete_page(index)` for any `index` other than `current_index`, leave
`current_page()` as it was, and that is a page. -/
theorem C5_cursor_stays_on_page (m : PageManager) (hcur : m.current_index_ < m.page_count) :
    (∀ index page, index ≤ m.page_count → m.page_count < UINT8_MAX →
        ∃ m', m.insert_page index page = some (m', some page) ∧
          m'.current_page = m.current_page) ∧
      (∀ page, m.page_count < UINT8_MAX →
        ∃ m', m.create_page page = some (m', some page) ∧
          m'.current_page = m.current_page) ∧
      (∀ index, index ≠ m.current_index_ →
        (m.delete_page index).current_page = m.current_page) ∧
      m.current_page = m.pages_[m.current_index_]? ∧ m.current_page.isSome = true := by
  have hU : UINT8_MAX = 255 := rfl
  have hS : SIZE_MOD = 4294967296 := by decide
  have hlen : m.current_index_ < m.pages_.length := hcur
  have hne : m.pages_ ≠ [] := by
    intro h; rw [h] at hlen; simp at hlen
  have hemp : m.pages_.isEmpty = false := by
    cases hp : m.pages_ with
    | nil => exact absurd hp hne
    | cons a l => rfl
  have hcp : m.current_page = m.pages_[m.current_index_]? := by
    simp [current_page, hemp]
  refine ⟨?_, ?_, ?_, hcp, ?_⟩
  · intro index page hidx hn
    refine ⟨_, insert_page_eq m index page hne hn hidx, ?_⟩
    rw [hcp]
    unfold current_page
    have hemp' : (m.pages_.take index ++ page :: m.pages_.drop index).isEmpty = false := by
      cases hq : m.pages_.take index ++ page :: m.pages_.drop index with
      | nil => simp at hq
      | cons a l => rfl
    simp only [hemp', Bool.false_eq_true, if_false]
    rw [getElem?_insert _ _ _ hidx]
    unfold page_count at hn
    by_cases h1 : index ≤ m.current_index_
    · have hmod : (m.current_index_ + 1) % SIZE_MOD = m.current_index_ + 1 :=
        Nat.mod_eq_of_lt (by omega)
      have h3 : ¬ m.current_index_ + 1 < index := by omega
      have h4 : ¬ m.current_index_ + 1 = index := by omega
      simp [h1, hmod, h3, h4]
    · have h3 : m.current_index_ < index := by omega
      simp [h1, h3]
  · intro page hn
    refine ⟨{ m with pages_ := m.pages_ ++ [page] }, ?_, ?_⟩
    · have hn' : m.pages_.length < UINT8_MAX := hn
      simp [PageManager.create_page, page_count, hn']
    · rw [hcp]
      unfold current_page
      have hemp' : (m.pages_ ++ [page]).isEmpty = false := by
        cases hq : m.pages_ ++ [page] with
        | nil => simp at hq
        | cons a l => rfl
      simp only [hemp', Bool.false_eq_true, if_false]
      rw [List.getElem?_append]
      simp [hlen]
  · intro index hidx
    by_cases hge : index ≥ m.pages_.length
    · simp [PageManager.delete_page, hge]
    · have h2 : 2 ≤ m.page_count := by unfold page_count; omega
      obtain ⟨hp, _, hc⟩ := delete_page_of_lt m index h2 (by unfold page_count; omega)
      rw [hcp]
      unfold current_page
      have hemp' : (m.delete_page index).pages_.isEmpty = false := by
        rw [hp]
        cases hq : m.pages_.eraseIdx index with
        | nil =>
          have := List.length_eraseIdx m.pages_ index
          rw [hq] at this
          unfold page_count at h2
          simp at this
          split at this <;> omega
        | cons a l => rfl
      simp only [hemp', Bool.false_eq_true, if_false]
      rw [hp, hc, List.getElem?_eraseIdx]
      by_cases h1 : index < m.current_index_
      · have h3 : ¬ m.current_index_ - 1 < index := by omega
        simp only [h1, if_true, h3, if_false]
        congr 1; omega
      · have h3 : m.current_index_ < index := by omega
        simp [h1, hidx, h3]
  · rw [hcp]
    simp [hlen]

/-- Witness of C5, the scenario of the specification: with A, B, C and the cursor on B,
`insert_page(0, X)` moves `current_index` to 2 and `delete_page(0)` moves it back to 1, and
the current page is B throughout. -/
theorem C5_cursor_stays_on_page_witness :
    state_ABC.current_index_ < state_ABC.page_count ∧
      ∃ m', state_ABC.insert_page 0 page_X = some (m', some page_X) ∧
        m'.current_index_ = 2 ∧ m'.current_page = some page_B ∧
        (m'.delete_page 0).current_index_ = 1 ∧
        (m'.delete_page 0).current_page = some page_B := by
  refine ⟨by decide, ?_⟩
  obtain ⟨m', h1, h2⟩ :=
    (C5_cursor_stays_on_page state_ABC (by decide)).1 0 page_X (by decide) (by decide)
  have h1' : state_ABC.insert_page 0 page_X =
      some ((⟨2, [page_X, page_A, page_B, page_C], [(1, 1), (2, 2), (3, 3)]⟩ :
        PageManager), some page_X) := by decide
  have hm : m' = (⟨2, [page_X, page_A, page_B, page_C], [(1, 1), (2, 2), (3, 3)]⟩ :
      PageManager) := by
    rw [h1'] at h1
    exact ((Prod.mk.inj (Option.some.inj h1)).1).symm
  have h3 := (C5_cursor_stays_on_page m' (by rw [hm]; decide)).2.2.1 0 (by rw [hm]; decide)
  refine ⟨m', h1, by rw [hm], ?_, by rw [hm]; decide, ?_⟩
  · rw [h2]; decide
  · rw [h3, h2]; decide

end nspanel_lovelace

/-! ## Cyclic navigation -/

namespace nspanel_lovelace

open PageManager

theorem cycle_loop_none (m : PageManager) (mode : Nat) :
    ∀ (fuel i : Nat),
      (∀ j, i ≤ j → j < m.pages_.length → m.not_hidden (m.cycle_index mode j) = false) →
      cycle_loop m mode i fuel = none
  | 0, _, _ => rfl
  | fuel + 1, i, h => by
    unfold cycle_loop
    by_cases hi : i < m.pages_.length
    · have hv := h i (le_refl _) hi
      simp only [hi, if_true, hv, Bool.false_eq_true, if_false]
      exact cycle_loop_none m mode fuel (i + 1) (fun j hj hlt => h j (by omega) hlt)
    · simp [hi]

theorem cycle_loop_some (m : PageManager) (mode k : Nat) (hk : k < m.pages_.length)
    (hv : m.not_hidden (m.cycle_index mode k) = true) :
    ∀ (fuel i : Nat), i ≤ k → m.pages_.length ≤ i + fuel →
      (∀ j, i ≤ j → j < k → m.not_hidden (m.cycle_index mode j) = false) →
      cycle_loop m mode i fuel = some (m.cycle_index mode k)
  | 0, i, hik, hfuel, _ => by omega
  | fuel + 1, i, hik, hfuel, h => by
    unfold cycle_loop
    have hi : i < m.pages_.length := by omega
    simp only [hi, if_true]
    by_cases hik' : i = k
    · subst hik'
      simp [hv]
    · have hv' := h i (le_refl _) (by omega)
      simp only [hv', Bool.false_eq_true, if_false]
      exact cycle_loop_some m mode k hk hv fuel (i + 1) (by omega) (by omega)
        (fun j hj hlt => h j (by omega) hlt)

/-- The bound on the iterations does not decide the result of the loop: any two bounds that
cover the remaining counters up to `pages_.size()` give the same result. -/
theorem cycle_loop_fuel_irrelevant (m : PageManager) (mode : Nat) :
    ∀ (fuel fuel' i : Nat), m.pages_.length ≤ i + fuel → m.pages_.length ≤ i + fuel' →
      cycle_loop m mode i fuel = cycle_loop m mode i fuel'
  | 0, 0, _, _, _ => rfl
  | 0, fuel' + 1, i, h, _ => by
    have hi : ¬ i < m.pages_.length := by omega
    simp [cycle_loop, hi]
  | fuel + 1, 0, i, _, h => by
    have hi : ¬ i < m.pages_.length := by omega
    simp [cycle_loop, hi]
  | fuel + 1, fuel' + 1, i, h, h' => by
    unfold cycle_loop
    by_cases hi : i < m.pages_.length
    · simp only [hi, if_true]
      rw [cycle_loop_fuel_irrelevant m mode fuel fuel' (i + 1) (by omega) (by omega)]
    · simp [hi]

theorem isEmpty_eq_false_of_lt {l : List Page} {i : Nat} (h : i < l.length) :
    l.isEmpty = false := by
  cases l with
  | nil => simp at h
  | cons a l => rfl

/-- The loop finds the page of loop counter `k`: `cycle_page` moves the cursor there. -/
theorem cycle_page_found (m : PageManager) (mode k : Nat) (hk : k < m.pages_.length)
    (hstart : (if mode &&& cycle_mode.none ≠ 0 then 0 else 1) ≤ k)
    (hv : m.not_hidden (m.cycle_index mode k) = true)
    (hleast : ∀ j, (if mode &&& cycle_mode.none ≠ 0 then 0 else 1) ≤ j → j < k →
      m.not_hidden (m.cycle_index mode j) = false) :
    m.cycle_page mode =
      ({ m with current_index_ := m.cycle_index mode k },
        m.pages_[m.cycle_index mode k]?) := by
  unfold cycle_page
  rw [isEmpty_eq_false_of_lt hk]
  simp only [Bool.false_eq_true, if_false]
  rw [cycle_loop_some m mode k hk hv _ _ hstart (by omega) hleast]

/-- The loop finds no page: `cycle_page` leaves the state as it is. -/
theorem cycle_page_not_found (m : PageManager) (mode : Nat) (hne : m.pages_.isEmpty = false)
    (hall : ∀ j, (if mode &&& cycle_mode.none ≠ 0 then 0 else 1) ≤ j → j < m.pages_.length →
      m.not_hidden (m.cycle_index mode j) = false) :
    m.cycle_page mode = (m, m.pages_[m.current_index_]?) := by
  unfold cycle_page
  rw [hne]
  simp only [Bool.false_eq_true, if_false]
  rw [cycle_loop_none m mode _ _ hall]

theorem cycle_index_forward (m : PageManager) (mode i : Nat)
    (hmode : mode &&& cycle_mode.backward = 0)
    (hmax : m.page_count ≤ SIZE_MAX / 2) (hcur : m.current_index_ < m.page_count)
    (hi : i < m.page_count) :
    m.cycle_index mode i = (m.current_index_ + i) % m.page_count := by
  have hS : SIZE_MAX / 2 = 2147483647 := by decide
  have hM : SIZE_MOD = 4294967296 := by decide
  unfold cycle_index
  unfold page_count at *
  simp only [hmode, ne_eq, not_true_eq_false, if_false]
  have hw : (m.current_index_ + i) % SIZE_MOD = m.current_index_ + i :=
    Nat.mod_eq_of_lt (by omega)
  rw [hw]

theorem cycle_index_backward (m : PageManager) (mode i : Nat)
    (hmode : mode &&& cycle_mode.backward ≠ 0)
    (hmax : m.page_count ≤ SIZE_MAX / 2) (hcur : m.current_index_ < m.page_count)
    (hi : i < m.page_count) :
    m.cycle_index mode i = (m.current_index_ + m.page_count - i) % m.page_count := by
  have hS : SIZE_MAX / 2 = 2147483647 := by decide
  have hM : SIZE_MOD = 4294967296 := by decide
  unfold cycle_index
  unfold page_count at *
  simp only [hmode, ne_eq, not_false_eq_true, if_true]
  have hw : (m.current_index_ + (m.pages_.length - i)) % SIZE_MOD =
      m.current_index_ + m.pages_.length - i := by
    rw [Nat.mod_eq_of_lt (by omega)]
    omega
  rw [hw]

theorem set_index_self (m : PageManager) : { m with current_index_ := m.current_index_ } = m := by
  cases m; rfl

/-- A least loop counter from `start` on that satisfies a decidable property. -/
theorem exists_least_counter (P : Nat → Bool) (start n : Nat)
    (h : ∃ k, start ≤ k ∧ k < n ∧ P k = true) :
    ∃ k, start ≤ k ∧ k < n ∧ P k = true ∧ ∀ j, start ≤ j → j < k → P j = false := by
  classical
  let Q : Nat → Prop := fun k => start ≤ k ∧ k < n ∧ P k = true
  have hQ : ∃ k, Q k := h
  refine ⟨Nat.find hQ, (Nat.find_spec hQ).1, (Nat.find_spec hQ).2.1, (Nat.find_spec hQ).2.2, ?_⟩
  intro j hj hlt
  have hnot := Nat.find_min hQ hlt
  have hjn : j < n := lt_trans hlt (Nat.find_spec hQ).2.1
  cases hp : P j with
  | false => rfl
  | true => exact absurd ⟨hj, hjn, hp⟩ hnot

end nspanel_lovelace

namespace nspanel_lovelace

open PageManager

theorem not_hidden_isSome {m : PageManager} {index : Nat} (h : m.not_hidden index = true) :
    ∃ page, m.pages_[index]? = some page ∧ page.hidden = false := by
  unfold not_hidden at h
  split at h
  · rename_i page hp
    exact ⟨page, hp, by simpa using h⟩
  · simp at h

theorem not_hidden_of_all_hidden {m : PageManager} (hall : ∀ p ∈ m.pages_, p.hidden = true)
    (index : Nat) : m.not_hidden index = false := by
  unfold not_hidden
  split
  · rename_i page hp
    have := hall page (List.getElem?_mem hp)
    simp [this]
  · rfl

/-- C6: on a manager whose cursor `c` is in range and that holds a visible page other than
the current one, `next_page()` moves the cursor to `(c + k) mod n` for the least `k` in
`[1, n-1]` whose page `(c + k) mod n` is not hidden and returns that page, and
`previous_page()` does the same with `(c + n - k) mod n`.  The page count is within
`max_size()` of the vector (half the `size_t` range). -/
theorem C6_next_previous_page (m : PageManager) (hmax : m.page_count ≤ SIZE_MAX / 2)
    (hcur : m.current_index_ < m.page_count)
    (hvis : ∃ j, j < m.page_count ∧ j ≠ m.current_index_ ∧ m.not_hidden j = true) :
    (∃ k, 1 ≤ k ∧ k ≤ m.page_count - 1 ∧
        m.not_hidden ((m.current_index_ + k) % m.page_count) = true ∧
        (∀ j, 1 ≤ j → j < k →
          m.not_hidden ((m.current_index_ + j) % m.page_count) = false) ∧
        m.next_page =
          ({ m with current_index_ := (m.current_index_ + k) % m.page_count },
            m.pages_[(m.current_index_ + k) % m.page_count]?) ∧
        m.next_page.2.isSome = true) ∧
      (∃ k, 1 ≤ k ∧ k ≤ m.page_count - 1 ∧
        m.not_hidden ((m.current_index_ + m.page_count - k) % m.page_count) = true ∧
        (∀ j, 1 ≤ j → j < k →
          m.not_hidden ((m.current_index_ + m.page_count - j) % m.page_count) = false) ∧
        m.previous_page =
          ({ m with current_index_ := (m.current_index_ + m.page_count - k) % m.page_count },
            m.pages_[(m.current_index_ + m.page_count - k) % m.page_count]?) ∧
        m.previous_page.2.isSome = true) := by
  obtain ⟨j, hj, hjc, hjv⟩ := hvis
  have hfw : cycle_mode.forward &&& cycle_mode.backward = 0 := by decide
  have hbw : cycle_mode.backward &&& cycle_mode.backward ≠ 0 := by decide
  have hfs : (if cycle_mode.forward &&& cycle_mode.none ≠ 0 then 0 else 1) = 1 := by decide
  have hbs : (if cycle_mode.backward &&& cycle_mode.none ≠ 0 then 0 else 1) = 1 := by decide
  constructor
  · -- forward: loop counter `k0` reaches the visible page `j`
    have hex : ∃ k, 1 ≤ k ∧ k < m.page_count ∧
        m.not_hidden ((m.current_index_ + k) % m.page_count) = true := by
      by_cases hlt : m.current_index_ < j
      · refine ⟨j - m.current_index_, by omega, by omega, ?_⟩
        have : m.current_index_ + (j - m.current_index_) = j := by omega
        rw [this, Nat.mod_eq_of_lt hj]; exact hjv
      · refine ⟨j + m.page_count - m.current_index_, by omega, by omega, ?_⟩
        have : m.current_index_ + (j + m.page_count - m.current_index_) = j + m.page_count := by
          omega
        rw [this, Nat.add_mod_right, Nat.mod_eq_of_lt hj]; exact hjv
    obtain ⟨k, hk1, hk2, hkv, hleast⟩ :=
      exists_least_counter (fun k => m.not_hidden ((m.current_index_ + k) % m.page_count))
        1 m.page_count hex
    have hci := cycle_index_forward m cycle_mode.forward k hfw hmax hcur hk2
    have hfound := cycle_page_found m cycle_mode.forward k hk2 (by rw [hfs]; exact hk1)
      (by rw [hci]; exact hkv)
      (by
        intro i hi hik
        rw [hfs] at hi
        rw [cycle_index_forward m cycle_mode.forward i hfw hmax hcur (by omega)]
        exact hleast i hi hik)
    rw [hci] at hfound
    refine ⟨k, hk1, by omega, hkv, hleast, hfound, ?_⟩
    obtain ⟨page, hp, _⟩ := not_hidden_isSome hkv
    show (m.cycle_page cycle_mode.forward).2.isSome = true
    rw [hfound]; simp [hp]
  · have hex : ∃ k, 1 ≤ k ∧ k < m.page_count ∧
        m.not_hidden ((m.current_index_ + m.page_count - k) % m.page_count) = true := by
      by_cases hlt : m.current_index_ < j
      · refine ⟨m.current_index_ + m.page_count - j, by omega, by omega, ?_⟩
        have : m.current_index_ + m.page_count - (m.current_index_ + m.page_count - j) = j := by
          omega
        rw [this, Nat.mod_eq_of_lt hj]; exact hjv
      · refine ⟨m.current_index_ - j, by omega, by omega, ?_⟩
        have : m.current_index_ + m.page_count - (m.current_index_ - j) = j + m.page_count := by
          omega
        rw [this, Nat.add_mod_right, Nat.mod_eq_of_lt hj]; exact hjv
    obtain ⟨k, hk1, hk2, hkv, hleast⟩ :=
      exists_least_counter
        (fun k => m.not_hidden ((m.current_index_ + m.page_count - k) % m.page_count))
        1 m.page_count hex
    have hci := cycle_index_backward m cycle_mode.backward k hbw hmax hcur hk2
    have hfound := cycle_page_found m cycle_mode.backward k hk2 (by rw [hbs]; exact hk1)
      (by rw [hci]; exact hkv)
      (by
        intro i hi hik
        rw [hbs] at hi
        rw [cycle_index_backward m cycle_mode.backward i hbw hmax hcur (by omega)]
        exact hleast i hi hik)
    rw [hci] at hfound
    refine ⟨k, hk1, by omega, hkv, hleast, hfound, ?_⟩
    obtain ⟨page, hp, _⟩ := not_hidden_isSome hkv
    show (m.cycle_page cycle_mode.backward).2.isSome = true
    rw [hfound]; simp [hp]

/-- Witness of C6, the scenario of the specification: with A visible, B hidden, C visible
and the cursor on A, `next_page()` lands on index 2 and `next_page()` again on index 0. -/
theorem C6_next_previous_page_witness :
    (state_A_hiddenB_C.page_count ≤ SIZE_MAX / 2 ∧
        state_A_hiddenB_C.current_index_ < state_A_hiddenB_C.page_count) ∧
      (state_A_hiddenB_C.next_page.2.isSome = true ∧
        state_A_hiddenB_C.previous_page.2.isSome = true) ∧
      state_A_hiddenB_C.next_page =
        ({ state_A_hiddenB_C with current_index_ := 2 }, some page_C) ∧
      state_A_hiddenB_C.next_page.1.next_page = (state_A_hiddenB_C, some page_A) := by
  have h := C6_next_previous_page state_A_hiddenB_C (by decide) (by decide)
    ⟨2, by decide, by decide, by decide⟩
  obtain ⟨⟨_, _, _, _, _, _, h1⟩, ⟨_, _, _, _, _, _, h2⟩⟩ := h
  exact ⟨⟨by decide, by decide⟩, ⟨h1, h2⟩, by decide, by decide⟩

/-- C7: on a manager whose cursor is in range and whose pages are all hidden (one page
included), `next_page()` and `previous_page()` return the page at `current_index` and leave
the state as it is. -/
theorem C7_all_hidden_no_move (m : PageManager) (hcur : m.current_index_ < m.page_count)
    (hall : ∀ p ∈ m.pages_, p.hidden = true) :
    ∃ page, m.pages_[m.current_index_]? = some page ∧
      m.next_page = (m, some page) ∧ m.previous_page = (m, some page) := by
  have hlen : m.current_index_ < m.pages_.length := hcur
  have hne := isEmpty_eq_false_of_lt hlen
  refine ⟨m.pages_[m.current_index_], List.getElem?_eq_getElem hlen, ?_, ?_⟩
  · unfold next_page
    rw [cycle_page_not_found m _ hne (fun j _ _ => not_hidden_of_all_hidden hall _)]
    rw [List.getElem?_eq_getElem hlen]
  · unfold previous_page
    rw [cycle_page_not_found m _ hne (fun j _ _ => not_hidden_of_all_hidden hall _)]
    rw [List.getElem?_eq_getElem hlen]

/-- Witness of C7: two hidden pages, cursor on the first. -/
theorem C7_all_hidden_no_move_witness :
    (state_two_hidden.current_index_ < state_two_hidden.page_count ∧
        ∀ p ∈ state_two_hidden.pages_, p.hidden = true) ∧
      ∃ page, state_two_hidden.pages_[state_two_hidden.current_index_]? = some page ∧
        state_two_hidden.next_page = (state_two_hidden, some page) ∧
        state_two_hidden.previous_page = (state_two_hidden, some page) :=
  ⟨⟨by decide, by decide⟩, C7_all_hidden_no_move state_two_hidden (by decide) (by decide)⟩

/-- C8: on a manager whose cursor is in range and whose current page is not hidden,
`cycle_page(mode)` for any mode with the `none` flag returns the current page and leaves
the state as it is, so that a second call gives what the first one gave.  The page count
is within `max_size()` of the vector (half the `size_t` range). -/
theorem C8_cycle_none_stays (m : PageManager) (mode : Nat)
    (hmax : m.page_count ≤ SIZE_MAX / 2) (hcur : m.current_index_ < m.page_count)
    (hmode : mode &&& cycle_mode.none ≠ 0) (hvis : m.not_hidden m.current_index_ = true) :
    ∃ page, m.pages_[m.current_index_]? = some page ∧
      m.cycle_page mode = (m, some page) ∧
      (m.cycle_page mode).1.cycle_page mode = m.cycle_page mode := by
  have hpos : 0 < m.page_count := by omega
  have hci : m.cycle_index mode 0 = m.current_index_ := by
    by_cases hb : mode &&& cycle_mode.backward = 0
    · rw [cycle_index_forward m mode 0 hb hmax hcur hpos]
      exact Nat.mod_eq_of_lt hcur
    · rw [cycle_index_backward m mode 0 hb hmax hcur hpos]
      rw [Nat.sub_zero, Nat.add_mod_right]
      exact Nat.mod_eq_of_lt hcur
  have hfound := cycle_page_found m mode 0 hpos (by simp [hmode])
    (by rw [hci]; exact hvis) (fun j _ hj => absurd hj (Nat.not_lt_zero j))
  rw [hci, set_index_self] at hfound
  obtain ⟨page, hp, _⟩ := not_hidden_isSome hvis
  rw [hp] at hfound
  refine ⟨page, hp, hfound, ?_⟩
  rw [hfound]
  exact hfound

/-- Witness of C8: A, B, C with the cursor on the visible page B, mode `none | backward`. -/
theorem C8_cycle_none_stays_witness :
    (state_ABC.page_count ≤ SIZE_MAX / 2 ∧ state_ABC.current_index_ < state_ABC.page_count ∧
        (cycle_mode.none ||| cycle_mode.backward) &&& cycle_mode.none ≠ 0 ∧
        state_ABC.not_hidden state_ABC.current_index_ = true) ∧
      ∃ page, state_ABC.pages_[state_ABC.current_index_]? = some page ∧
        state_ABC.cycle_page (cycle_mode.none ||| cycle_mode.backward) =
          (state_ABC, some page) ∧
        (state_ABC.cycle_page (cycle_mode.none ||| cycle_mode.backward)).1.cycle_page
            (cycle_mode.none ||| cycle_mode.backward) =
          state_ABC.cycle_page (cycle_mode.none ||| cycle_mode.backward) :=
  ⟨⟨by decide, by decide, by decide, by decide⟩,
    C8_cycle_none_stays state_ABC (cycle_mode.none ||| cycle_mode.backward)
      (by decide) (by decide) (by decide) (by decide)⟩

end nspanel_lovelace

/-! ## Bookmarks -/

namespace nspanel_lovelace

open PageManager

theorem bookmark_page_frame (m : PageManager) (id index : Nat) (overwrite : Bool) :
    (m.bookmark_page id index overwrite).1.pages_ = m.pages_ ∧
      (m.bookmark_page id index overwrite).1.current_index_ = m.current_index_ := by
  unfold bookmark_page
  split
  · split
    · exact ⟨rfl, rfl⟩
    · split <;> exact ⟨rfl, rfl⟩
  · exact ⟨rfl, rfl⟩

theorem bookmark_page_true_iff (m : PageManager) (id index : Nat) (overwrite : Bool) :
    (m.bookmark_page id index overwrite).2 = true ↔
      index < m.page_count ∧ (m.has_bookmark id = false ∨ overwrite = true) := by
  unfold bookmark_page has_bookmark page_count
  by_cases hidx : index < m.pages_.length
  · simp only [hidx, if_true, true_and]
    cases hf : m.bookmark_find id with
    | none => simp
    | some second => cases overwrite <;> simp
  · simp [hidx]

theorem bookmark_page_find (m : PageManager) (id index : Nat) (overwrite : Bool)
    (hok : (m.bookmark_page id index overwrite).2 = true) (id' : Nat) :
    (m.bookmark_page id index overwrite).1.bookmark_find id' =
      if id' = id then some index else m.bookmark_find id' := by
  unfold bookmark_page at hok ⊢
  by_cases hidx : index < m.pages_.length
  · simp only [hidx, if_true] at hok ⊢
    cases hf : m.bookmark_find id with
    | none =>
      simp only [bookmark_find]
      by_cases hid : id' = id
      · subst hid; simp [List.lookup]
      · have hb : (id' == id) = false := by simpa using hid
        simp [List.lookup, hb, hid]
    | some second =>
      rw [hf] at hok
      cases overwrite with
      | false => simp at hok
      | true =>
        simp only [if_true, bookmark_find]
        rw [lookup_bookmark_assign]
        by_cases hid : id' = id
        · subst hid
          have hf' : List.lookup id' m.bookmarks_ = some second := hf
          simp [hf']
        · simp [hid]
  · simp [hidx] at hok

/-- C9 as stated fails: with pages A, B and bookmark 1 on index 0, `bookmark_page(1, 1)`
with `overwrite` false returns false and keeps the association, and
`find_bookmarked_page(1)` then returns A, which is not the page at index 1. -/
theorem C9_existing_bookmark_kept :
    1 < state_AB_bookmarked.page_count ∧
      (state_AB_bookmarked.bookmark_page 1 1 false).2 = false ∧
      ((state_AB_bookmarked.bookmark_page 1 1 false).1.find_bookmarked_page 1 false).2 =
        some page_A ∧
      state_AB_bookmarked.pages_[1]? = some page_B ∧
      ((state_AB_bookmarked.bookmark_page 1 1 false).1.find_bookmarked_page 1 false).2 ≠
        state_AB_bookmarked.pages_[1]? := by
  decide

/-- C9 (amended): for every manager, every `index < page_count` and every id that is not
bookmarked yet (or with `overwrite` set), `bookmark_page(id, index, overwrite)` returns
true and `find_bookmarked_page(id)` right after it returns the page at position
`index`. -/
theorem C9_bookmark_round_trip (m : PageManager) (id index : Nat) (overwrite upd : Bool)
    (hidx : index < m.page_count)
    (hfree : m.has_bookmark id = false ∨ overwrite = true) :
    (m.bookmark_page id index overwrite).2 = true ∧
      ∃ page, m.pages_[index]? = some page ∧
        ((m.bookmark_page id index overwrite).1.find_bookmarked_page id upd).2 =
          some page := by
  have hok := (bookmark_page_true_iff m id index overwrite).2 ⟨hidx, hfree⟩
  refine ⟨hok, _, List.getElem?_eq_getElem hidx, ?_⟩
  rw [find_bookmarked_page_snd, bookmark_page_find m id index overwrite hok,
    (bookmark_page_frame m id index overwrite).1]
  simp only [if_true, Option.some_bind]
  exact List.getElem?_eq_getElem hidx

/-- Witness of C9 (amended): bookmarking index 1 of A, B under the unused id 2. -/
theorem C9_bookmark_round_trip_witness :
    (1 < state_AB_bookmarked.page_count ∧
        (state_AB_bookmarked.has_bookmark 2 = false ∨ false = true)) ∧
      (state_AB_bookmarked.bookmark_page 2 1 false).2 = true ∧
      ∃ page, state_AB_bookmarked.pages_[1]? = some page ∧
        ((state_AB_bookmarked.bookmark_page 2 1 false).1.find_bookmarked_page 2 false).2 =
          some page :=
  ⟨⟨by decide, Or.inl (by decide)⟩,
    C9_bookmark_round_trip state_AB_bookmarked 2 1 false false (by decide)
      (Or.inl (by decide))⟩

/-- C10: `bookmark_page(id, index, overwrite)` returns true exactly when
`index < page_count` and the id is not bookmarked yet or `overwrite` is set; when it
returns false the bookmark table is unchanged; when it returns true the id maps to `index`
and every other id keeps its association; pages and `current_index` are unchanged in all
cases. -/
theorem C10_bookmark_page_result (m : PageManager) (id index : Nat) (overwrite : Bool) :
    ((m.bookmark_page id index overwrite).2 = true ↔
        index < m.page_count ∧ (m.has_bookmark id = false ∨ overwrite = true)) ∧
      ((m.bookmark_page id index overwrite).2 = false →
        (m.bookmark_page id index overwrite).1 = m) ∧
      ((m.bookmark_page id index overwrite).2 = true →
        (m.bookmark_page id index overwrite).1.bookmark_find id = some index ∧
          ∀ id', id' ≠ id →
            (m.bookmark_page id index overwrite).1.bookmark_find id' = m.bookmark_find id') ∧
      (m.bookmark_page id index overwrite).1.pages_ = m.pages_ ∧
      (m.bookmark_page id index overwrite).1.current_index_ = m.current_index_ := by
  refine ⟨bookmark_page_true_iff m id index overwrite, ?_, ?_,
    (bookmark_page_frame m id index overwrite).1, (bookmark_page_frame m id index overwrite).2⟩
  · unfold bookmark_page
    split
    · split
      · simp
      · cases overwrite <;> simp
    · simp
  · intro hok
    refine ⟨?_, ?_⟩
    · rw [bookmark_page_find m id index overwrite hok]; simp
    · intro id' hid
      rw [bookmark_page_find m id index overwrite hok]; simp [hid]

/-- Witness of C10: on A, B with bookmark 1 on index 0, `bookmark_page(1, 1, false)` fails
and keeps the state, `bookmark_page(1, 1, true)` succeeds and stores index 1. -/
theorem C10_bookmark_page_result_witness :
    (state_AB_bookmarked.bookmark_page 1 1 false).1 = state_AB_bookmarked ∧
      (state_AB_bookmarked.bookmark_page 1 1 true).1.bookmark_find 1 = some 1 :=
  ⟨(C10_bookmark_page_result state_AB_bookmarked 1 1 false).2.1 (by decide),
    ((C10_bookmark_page_result state_AB_bookmarked 1 1 true).2.2.1 (by decide)).1⟩

end nspanel_lovelace

/-! ## Lookups by index and by uuid -/

namespace nspanel_lovelace

open PageManager

theorem get_page_last (m : PageManager) (hne : m.pages_ ≠ []) (hmax : m.page_count ≤ SIZE_MAX) :
    (m.pages_.length + SIZE_MOD - 1) % SIZE_MOD = m.pages_.length - 1 := by
  have hS : SIZE_MAX = 4294967295 := by decide
  have hM : SIZE_MOD = 4294967296 := by decide
  have hpos : 0 < m.pages_.length := List.length_pos.2 hne
  unfold page_count at hmax
  have : m.pages_.length + SIZE_MOD - 1 = (m.pages_.length - 1) + SIZE_MOD := by omega
  rw [this, Nat.add_mod_right]
  exact Nat.mod_eq_of_lt (by omega)

theorem get_page_eq (m : PageManager) (index : Nat) (hne : m.pages_ ≠ [])
    (hmax : m.page_count ≤ SIZE_MAX) :
    m.get_page index =
      ({ m with current_index_ := min index (m.page_count - 1) },
        m.pages_[min index (m.page_count - 1)]?) := by
  have hpos : 0 < m.pages_.length := List.length_pos.2 hne
  unfold get_page
  simp only [get_page_last m hne hmax]
  have hclamp : (if index > m.pages_.length - 1 then m.pages_.length - 1 else index) =
      min index (m.page_count - 1) := by
    unfold page_count
    split <;> omega
  rw [hclamp]
  have hlt : ¬ min index (m.page_count - 1) ≥ m.pages_.length := by
    unfold page_count; omega
  simp [find_page, hlt]

theorem get_page_empty (m : PageManager) (index : Nat) (he : m.pages_ = []) :
    m.get_page index = (m, none) := by
  simp [get_page, find_page, he]

/-- C11: on a non-empty manager `get_page(index)` returns, for every index, the page at
position `min(index, n - 1)`, which exists; on the empty manager it returns no page for
every index.  The page count is a `size_t`. -/
theorem C11_get_page_clamps (m : PageManager) (index : Nat)
    (hmax : m.page_count ≤ SIZE_MAX) :
    (m.pages_ ≠ [] →
        ∃ page, m.pages_[min index (m.page_count - 1)]? = some page ∧
          (m.get_page index).2 = some page) ∧
      (m.pages_ = [] → (m.get_page index).2 = none) := by
  constructor
  · intro hne
    have hpos : 0 < m.pages_.length := List.length_pos.2 hne
    have hlt : min index (m.page_count - 1) < m.pages_.length := by
      unfold page_count; omega
    refine ⟨m.pages_[min index (m.page_count - 1)], List.getElem?_eq_getElem hlt, ?_⟩
    rw [get_page_eq m index hne hmax]
    exact List.getElem?_eq_getElem hlt
  · intro he
    rw [get_page_empty m index he]

/-- Witness of C11: index 7 on the three pages A, B, C gives the last page C, and index 1
gives B. -/
theorem C11_get_page_clamps_witness :
    state_ABC.page_count ≤ SIZE_MAX ∧
      (state_ABC.get_page 7).2 = some page_C ∧ (state_ABC.get_page 1).2 = some page_B := by
  have h7 := (C11_get_page_clamps state_ABC 7 (by decide)).1 (by decide)
  have h1 := (C11_get_page_clamps state_ABC 1 (by decide)).1 (by decide)
  obtain ⟨p7, hp7, hg7⟩ := h7
  obtain ⟨p1, hp1, hg1⟩ := h1
  have e7 : state_ABC.pages_[min 7 (state_ABC.page_count - 1)]? = some page_C := by decide
  have e1 : state_ABC.pages_[min 1 (state_ABC.page_count - 1)]? = some page_B := by decide
  rw [e7] at hp7
  rw [e1] at hp1
  exact ⟨by decide, by rw [hg7, ← hp7], by rw [hg1, ← hp1]⟩

/-- C12 as stated fails: with A, B, C and the cursor on B, `get_page(0)` moves
`current_index` from 1 to 0. -/
theorem C12_get_page_moves_cursor :
    state_ABC.current_index_ = 1 ∧ (state_ABC.get_page 0).1.current_index_ = 0 ∧
      (state_ABC.get_page 0).1.current_index_ ≠ state_ABC.current_index_ := by
  decide

/-- C12 (amended): `get_page(index)` leaves the pages and the bookmark table unchanged; on
a non-empty manager it sets `current_index` to `min(index, n - 1)`, the position of the
page it returns, and on the empty manager it leaves the whole state unchanged.  The page
count is a `size_t`. -/
theorem C12_get_page_frame (m : PageManager) (index : Nat)
    (hmax : m.page_count ≤ SIZE_MAX) :
    (m.get_page index).1.pages_ = m.pages_ ∧
      (m.get_page index).1.bookmarks_ = m.bookmarks_ ∧
      (m.pages_ ≠ [] →
        (m.get_page index).1.current_index_ = min index (m.page_count - 1)) ∧
      (m.pages_ = [] → (m.get_page index).1 = m) := by
  by_cases hne : m.pages_ = []
  · rw [get_page_empty m index hne]
    exact ⟨rfl, rfl, fun h => absurd hne h, fun _ => rfl⟩
  · rw [get_page_eq m index hne hmax]
    exact ⟨rfl, rfl, fun _ => rfl, fun h => absurd h hne⟩

/-- Witness of C12 (amended): `get_page(7)` on A, B, C keeps pages and bookmarks and puts
the cursor on index 2. -/
theorem C12_get_page_frame_witness :
    state_ABC.page_count ≤ SIZE_MAX ∧
      (state_ABC.get_page 7).1.pages_ = state_ABC.pages_ ∧
      (state_ABC.get_page 7).1.bookmarks_ = state_ABC.bookmarks_ ∧
      (state_ABC.get_page 7).1.current_index_ = 2 := by
  have h := C12_get_page_frame state_ABC 7 (by decide)
  exact ⟨by decide, h.1, h.2.1, by rw [h.2.2.1 (by decide)]; decide⟩

end nspanel_lovelace

namespace nspanel_lovelace

open PageManager

theorem uuid_loop_eq_none (uuid : String) :
    ∀ (ps : List Page) (i : Nat), uuid_loop uuid ps i = none ↔ ∀ p ∈ ps, p.uuid ≠ uuid
  | [], _ => by simp [uuid_loop]
  | p :: ps, i => by
    unfold uuid_loop
    by_cases hp : p.uuid = uuid
    · simp [hp]
    · simp only [hp, if_false, List.mem_cons, forall_eq_or_imp, ne_eq, not_false_eq_true,
        true_and]
      exact uuid_loop_eq_none uuid ps (i + 1)

/-- A result of the scan is the first position of a page with the uuid. -/
theorem uuid_loop_eq_some (uuid : String) :
    ∀ (ps : List Page) (i r : Nat), uuid_loop uuid ps i = some r →
      i ≤ r ∧ (∃ p, ps[r - i]? = some p ∧ p.uuid = uuid) ∧
        ∀ j q, j < r - i → ps[j]? = some q → q.uuid ≠ uuid
  | [], _, _, h => by simp [uuid_loop] at h
  | p :: ps, i, r, h => by
    unfold uuid_loop at h
    by_cases hp : p.uuid = uuid
    · simp only [hp, if_true, Option.some.injEq] at h
      subst h
      refine ⟨le_refl _, ⟨p, by simp, hp⟩, ?_⟩
      intro j q hj
      omega
    · simp only [hp, if_false] at h
      obtain ⟨hle, ⟨q, hq, hqu⟩, hleast⟩ := uuid_loop_eq_some uuid ps (i + 1) r h
      have hr : r - i = (r - (i + 1)) + 1 := by omega
      refine ⟨by omega, ⟨q, by rw [hr, List.getElem?_cons_succ]; exact hq, hqu⟩, ?_⟩
      intro j q' hj hq'
      cases j with
      | zero =>
        simp only [List.getElem?_cons_zero, Option.some.injEq] at hq'
        rw [← hq']; exact hp
      | succ j =>
        rw [List.getElem?_cons_succ] at hq'
        exact hleast j q' (by omega) hq'

/-- The scan from position 0 returns the least index of a page with the uuid. -/
theorem uuid_loop_least (uuid : String) (ps : List Page) (i : Nat) (p : Page)
    (hp : ps[i]? = some p) (hu : p.uuid = uuid)
    (hleast : ∀ j q, j < i → ps[j]? = some q → q.uuid ≠ uuid) :
    uuid_loop uuid ps 0 = some i := by
  cases h : uuid_loop uuid ps 0 with
  | none =>
    exact absurd hu ((uuid_loop_eq_none uuid ps 0).1 h p (List.getElem?_mem hp))
  | some r =>
    obtain ⟨_, ⟨q, hq, hqu⟩, hl⟩ := uuid_loop_eq_some uuid ps 0 r h
    simp only [Nat.sub_zero] at hq hl
    rcases Nat.lt_trichotomy r i with hlt | heq | hgt
    · exact absurd hqu (hleast r q hlt hq)
    · rw [heq]
    · exact absurd hu (hl i p hgt hp)

/-- C13: on a non-empty manager whose cursor is in range, `find_page_index(uuid)` returns
the sentinel `SIZE_MAX` exactly when no held page has the uuid; any other result is an index
below `page_count` whose page has the uuid: `current_index` when the current page matches,
the least matching index otherwise, the only matching index when the uuids are distinct.
The sentinel is not a valid index.  The page count is a `size_t`. -/
theorem C13_find_page_index (m : PageManager) (uuid : String)
    (hcur : m.current_index_ < m.page_count) (hmax : m.page_count ≤ SIZE_MAX) :
    ∃ r, m.find_page_index uuid = some r ∧
      (r = SIZE_MAX ↔ ∀ p ∈ m.pages_, p.uuid ≠ uuid) ∧
      (r ≠ SIZE_MAX → r < m.page_count ∧ ∃ p, m.pages_[r]? = some p ∧ p.uuid = uuid) ∧
      ((∃ p, m.pages_[m.current_index_]? = some p ∧ p.uuid = uuid) →
        r = m.current_index_) ∧
      ((∀ p, m.pages_[m.current_index_]? = some p → p.uuid ≠ uuid) →
        ∀ j q, j < r → m.pages_[j]? = some q → q.uuid ≠ uuid) ∧
      ((m.pages_.map Page.uuid).Nodup →
        ∀ j q, m.pages_[j]? = some q → q.uuid = uuid → j = r) ∧
      ¬ (SIZE_MAX < m.page_count) := by
  have hlen : m.current_index_ < m.pages_.length := hcur
  have hmax' : m.pages_.length ≤ SIZE_MAX := hmax
  have hcp : m.pages_[m.current_index_]? = some m.pages_[m.current_index_] :=
    List.getElem?_eq_getElem hlen
  -- the shape of the result, in the three cases of the source
  have hshape : ∃ r, m.find_page_index uuid = some r ∧
      (r = SIZE_MAX ↔ ∀ p ∈ m.pages_, p.uuid ≠ uuid) ∧
      (r ≠ SIZE_MAX → r < m.page_count ∧ ∃ p, m.pages_[r]? = some p ∧ p.uuid = uuid) ∧
      ((∃ p, m.pages_[m.current_index_]? = some p ∧ p.uuid = uuid) →
        r = m.current_index_) ∧
      ((∀ p, m.pages_[m.current_index_]? = some p → p.uuid ≠ uuid) →
        ∀ j q, j < r → m.pages_[j]? = some q → q.uuid ≠ uuid) := by
    have hdef : m.find_page_index uuid =
        if m.pages_[m.current_index_].uuid = uuid then some m.current_index_
        else
          match uuid_loop uuid m.pages_ 0 with
          | some i => some i
          | none => some SIZE_MAX := by
      unfold find_page_index
      rw [hcp]
    rw [hdef]
    by_cases hm : m.pages_[m.current_index_].uuid = uuid
    · simp only [hm, if_true]
      refine ⟨m.current_index_, rfl, ?_, ?_, fun _ => rfl, ?_⟩
      · constructor
        · intro h; omega
        · intro h
          exact absurd hm (h _ (List.getElem?_mem hcp))
      · intro _
        exact ⟨hcur, _, hcp, hm⟩
      · intro h
        exact absurd hm (h _ hcp)
    · simp only [hm, if_false]
      cases hl : uuid_loop uuid m.pages_ 0 with
      | none =>
        have hnone := (uuid_loop_eq_none uuid m.pages_ 0).1 hl
        refine ⟨SIZE_MAX, rfl, ⟨fun _ => hnone, fun _ => rfl⟩, fun h => absurd rfl h, ?_, ?_⟩
        · rintro ⟨p, hp, hpu⟩
          exact absurd hpu (hnone p (List.getElem?_mem hp))
        · intro _ j q _ hq
          exact hnone q (List.getElem?_mem hq)
      | some i =>
        obtain ⟨_, ⟨q, hq, hqu⟩, hleast⟩ := uuid_loop_eq_some uuid m.pages_ 0 i hl
        simp only [Nat.sub_zero] at hq hleast
        have hi : i < m.pages_.length := (List.getElem?_eq_some_iff.1 hq).1
        refine ⟨i, rfl, ⟨?_, ?_⟩, ?_, ?_, ?_⟩
        · intro h; omega
        · intro h
          exact absurd hqu (h q (List.getElem?_mem hq))
        · intro _
          exact ⟨hi, q, hq, hqu⟩
        · rintro ⟨p, hp, hpu⟩
          rw [hcp] at hp
          exact absurd (by rw [Option.some.inj hp]; exact hpu) hm
        · intro _ j q' hj hq'
          exact hleast j q' hj hq'
  obtain ⟨r, hr, hsent, hidx, hcurm, hleast⟩ := hshape
  refine ⟨r, hr, hsent, hidx, hcurm, hleast, ?_, by unfold page_count; omega⟩
  intro hnd j q hq hqu
  have hj : j < m.pages_.length := (List.getElem?_eq_some_iff.1 hq).1
  have hrne : r ≠ SIZE_MAX := by
    intro h
    exact absurd hqu (hsent.1 h q (List.getElem?_mem hq))
  obtain ⟨hrlt, p, hp, hpu⟩ := hidx hrne
  have h1 : (m.pages_.map Page.uuid)[j]? = some uuid := by
    rw [List.getElem?_map, hq]; simp [hqu]
  have h2 : (m.pages_.map Page.uuid)[r]? = some uuid := by
    rw [List.getElem?_map, hp]; simp [hpu]
  by_contra hne
  rcases Nat.lt_or_gt_of_ne hne with hlt | hgt
  · exact List.nodup_iff_getElem?_ne_getElem?.1 hnd j r hlt
      (by rw [List.length_map]; exact hrlt) (by rw [h1, h2])
  · exact List.nodup_iff_getElem?_ne_getElem?.1 hnd r j hgt
      (by rw [List.length_map]; exact hj) (by rw [h1, h2])

/-- Witness of C13: on A, B, C with the cursor on B, "C" is found at index 2 and "Z" gives
the sentinel. -/
theorem C13_find_page_index_witness :
    (state_ABC.current_index_ < state_ABC.page_count ∧ state_ABC.page_count ≤ SIZE_MAX) ∧
      state_ABC.find_page_index "C" = some 2 ∧
      state_ABC.find_page_index "Z" = some SIZE_MAX := by
  obtain ⟨r, hr, _, _, _, _, hu, _⟩ :=
    C13_find_page_index state_ABC "C" (by decide) (by decide)
  obtain ⟨z, hz, hs, _⟩ := C13_find_page_index state_ABC "Z" (by decide) (by decide)
  have h2 : 2 = r := hu (by decide) 2 page_C (by decide) (by decide)
  have hzs : z = SIZE_MAX := hs.2 (by decide)
  exact ⟨⟨by decide, by decide⟩, by rw [hr, h2], by rw [hz, hzs]⟩

/-- C14 (the code reads a slot that does not exist): on the freshly constructed, empty
manager `find_page_index(uuid)` dereferences `pages_[current_index_]` before any check, so
`find_page_index`, `find_page(uuid)` and `bookmark_page(id, uuid)` have no defined result
there, for every uuid, id and flag. -/
theorem C14_empty_uuid_lookup_undefined :
    PageManager.init.pages_ = [] ∧
      ∀ (uuid : String) (id : Nat) (flag : Bool),
        PageManager.init.find_page_index uuid = none ∧
          PageManager.init.find_page_uuid uuid flag = none ∧
          PageManager.init.bookmark_page_uuid id uuid flag = none := by
  refine ⟨rfl, ?_⟩
  intro uuid id flag
  have h : PageManager.init.find_page_index uuid = none := rfl
  refine ⟨h, ?_, ?_⟩
  · unfold find_page_uuid; rw [h]
  · unfold bookmark_page_uuid; rw [h]

/-- C15: `delete_page(uuid)` leaves the state unchanged when no held page has the uuid,
and otherwise gives the state of `delete_page(i)` for the least index `i` whose page has
the uuid. -/
theorem C15_delete_page_uuid (m : PageManager) (uuid : String) :
    ((∀ p ∈ m.pages_, p.uuid ≠ uuid) → m.delete_page_uuid uuid = m) ∧
      ∀ i p, m.pages_[i]? = some p → p.uuid = uuid →
        (∀ j q, j < i → m.pages_[j]? = some q → q.uuid ≠ uuid) →
        m.delete_page_uuid uuid = m.delete_page i := by
  constructor
  · intro h
    unfold delete_page_uuid
    rw [(uuid_loop_eq_none uuid m.pages_ 0).2 h]
  · intro i p hp hu hleast
    unfold delete_page_uuid
    rw [uuid_loop_least uuid m.pages_ i p hp hu hleast]

/-- Witness of C15: on A, B, C deleting uuid "Z" changes nothing and deleting uuid "B" is
`delete_page(1)`. -/
theorem C15_delete_page_uuid_witness :
    state_ABC.delete_page_uuid "Z" = state_ABC ∧
      state_ABC.delete_page_uuid "B" = state_ABC.delete_page 1 :=
  ⟨(C15_delete_page_uuid state_ABC "Z").1 (by decide),
    (C15_delete_page_uuid state_ABC "B").2 1 page_B (by decide) (by decide)
      (by
        intro j q hj hq
        have hj0 : j = 0 := by omega
        subst hj0
        have e : state_ABC.pages_[0]? = some page_A := by decide
        rw [e] at hq
        rw [← Option.some.inj hq]
        decide)⟩

end nspanel_lovelace

/-! ## The empty collection, failed preconditions, bookmark lookups -/

namespace nspanel_lovelace

open PageManager

/-- C16: in every state reachable from a fresh manager through the public members, an
empty page collection comes with `current_index = 0` and an empty bookmark table; and on
any manager that holds one page, `delete_page(0)` gives the state of a fresh manager: no
page, `current_index` 0, no bookmark. -/
theorem C16_empty_collection_reset (m : PageManager) (h : Reachable m) :
    (m.pages_ = [] → m.current_index_ = 0 ∧ m.bookmarks_ = []) ∧
      ∀ one : PageManager, one.page_count = 1 →
        (one.delete_page 0).pages_ = [] ∧ (one.delete_page 0).current_index_ = 0 ∧
          (one.delete_page 0).bookmarks_ = [] := by
  have hinv := Inv.of_reachable h
  constructor
  · intro he
    have hidx := hinv.index_le
    rw [he] at hidx
    refine ⟨by simpa using hidx, ?_⟩
    cases hb : m.bookmarks_ with
    | nil => rfl
    | cons e rest =>
      have := hinv.bookmarks_lt e (by rw [hb]; exact List.mem_cons_self _ _)
      rw [he] at this
      simp at this
  · intro one hone
    have hlen : one.pages_.length = 1 := hone
    obtain ⟨page, hp⟩ := List.length_eq_one.1 hlen
    simp [PageManager.delete_page, hp]

/-- Witness of C16: creating A, bookmarking it and deleting it leads back to the fresh
state; deleting the only page of a bookmarked one-page manager clears it. -/
theorem C16_empty_collection_reset_witness :
    Reachable PageManager.init ∧
      (PageManager.init.current_index_ = 0 ∧ PageManager.init.bookmarks_ = []) ∧
      (state_bookmarked.delete_page 0).bookmarks_ = [] :=
  ⟨⟨calls_emptied, by decide⟩,
    (C16_empty_collection_reset PageManager.init ⟨calls_emptied, by decide⟩).1 rfl,
    ((C16_empty_collection_reset PageManager.init ⟨calls_emptied, by decide⟩).2
      state_bookmarked (by decide)).2.2⟩

/-- C17 as stated fails: on the fresh manager `insert_page(1, A)` completes, returns no
page and leaves the state as it is; so does `insert_page(7, X)` on A, B, C. -/
theorem C17_malformed_index_returns_null :
    1 > PageManager.init.page_count ∧
      PageManager.init.insert_page 1 page_A = some (PageManager.init, none) ∧
      7 > state_ABC.page_count ∧
      state_ABC.insert_page 7 page_X = some (state_ABC, none) := by
  decide

/-- C17 (amended): below the page ceiling, `insert_page` with `index > page_count`
completes, returns no page and leaves the state unchanged; at the page ceiling
(`page_count >= 255` before the call) `insert_page` does not complete, whatever the index,
and neither does `create_page`. -/
theorem C17_insert_page_preconditions (m : PageManager) (index : Nat) (page : Page) :
    (m.page_count < UINT8_MAX → index > m.page_count →
        m.insert_page index page = some (m, none)) ∧
      (UINT8_MAX ≤ m.page_count →
        m.insert_page index page = none ∧ m.create_page page = none) := by
  constructor
  · intro hn hidx
    have hidx' : index > m.pages_.length := hidx
    simp [PageManager.insert_page, hn, hidx']
  · intro hn
    have hn' : ¬ m.page_count < UINT8_MAX := by omega
    simp [PageManager.insert_page, PageManager.create_page, hn']

/-- Witness of C17 (amended): index 7 on the three pages A, B, C, and any insertion into a
manager of 255 pages. -/
theorem C17_insert_page_preconditions_witness :
    state_ABC.insert_page 7 page_X = some (state_ABC, none) ∧
      state_full.insert_page 0 page_X = none ∧ state_full.create_page page_X = none :=
  ⟨(C17_insert_page_preconditions state_ABC 7 page_X).1 (by decide) (by decide),
    (C17_insert_page_preconditions state_full 0 page_X).2
      (by
        show UINT8_MAX ≤ (List.replicate 255 page_A).length
        rw [List.length_replicate]
        decide)⟩

/-- C19: in every state reachable from a fresh manager through the public members,
`has_bookmark(id)` is true exactly when `find_bookmarked_page(id)` returns a page, for
every id and either value of the `update_current_index` flag. -/
theorem C19_has_bookmark_iff_found (m : PageManager) (h : Reachable m) (id : Nat)
    (upd : Bool) :
    m.has_bookmark id = true ↔ (m.find_bookmarked_page id upd).2.isSome = true := by
  have hinv := Inv.of_reachable h
  rw [find_bookmarked_page_snd]
  unfold has_bookmark
  cases hf : m.bookmark_find id with
  | none => simp
  | some second =>
    have hlt : second < m.pages_.length := hinv.bookmarks_lt _ (lookup_mem hf)
    simp [hlt]

/-- Witness of C19: the one-page state with bookmark 1, for the present id 1 and the absent
id 2. -/
theorem C19_has_bookmark_iff_found_witness :
    Reachable state_bookmarked ∧
      (state_bookmarked.has_bookmark 1 = true ↔
        (state_bookmarked.find_bookmarked_page 1 false).2.isSome = true) ∧
      (state_bookmarked.has_bookmark 2 = true ↔
        (state_bookmarked.find_bookmarked_page 2 true).2.isSome = true) :=
  ⟨⟨calls_bookmarked, by decide⟩,
    C19_has_bookmark_iff_found state_bookmarked ⟨calls_bookmarked, by decide⟩ 1 false,
    C19_has_bookmark_iff_found state_bookmarked ⟨calls_bookmarked, by decide⟩ 2 true⟩

end nspanel_lovelace

/-! ## Deleting the current page; stepping forth and back -/

namespace nspanel_lovelace

open PageManager

/-- The remainder of a number that is at most twice the modulus. -/
theorem mod_le_two (x n : Nat) (hx : x ≤ 2 * n) :
    (x < n ∧ x % n = x) ∨ (n ≤ x ∧ x < 2 * n ∧ x % n = x - n) ∨ (x = 2 * n ∧ x % n = 0) := by
  by_cases h1 : x < n
  · exact Or.inl ⟨h1, Nat.mod_eq_of_lt h1⟩
  · by_cases h2 : x < 2 * n
    · refine Or.inr (Or.inl ⟨by omega, h2, ?_⟩)
      rw [Nat.mod_eq_sub_mod (by omega)]
      exact Nat.mod_eq_of_lt (by omega)
    · refine Or.inr (Or.inr ⟨by omega, ?_⟩)
      have : x = 2 * n := by omega
      rw [this]
      exact Nat.mul_mod_left 2 n

theorem cycle_index_backward_le (m : PageManager) (mode i : Nat)
    (hmode : mode &&& cycle_mode.backward ≠ 0)
    (hmax : m.page_count ≤ SIZE_MAX / 2) (hcur : m.current_index_ ≤ m.page_count) :
    m.cycle_index mode i = (m.current_index_ + (m.page_count - i)) % m.page_count := by
  have hS : SIZE_MAX / 2 = 2147483647 := by decide
  have hM : SIZE_MOD = 4294967296 := by decide
  unfold cycle_index
  unfold page_count at *
  simp only [hmode, ne_eq, not_false_eq_true, if_true]
  have hw : (m.current_index_ + (m.pages_.length - i)) % SIZE_MOD =
      m.current_index_ + (m.pages_.length - i) := Nat.mod_eq_of_lt (by omega)
  rw [hw]

theorem not_hidden_congr {m₁ m₂ : PageManager} (h : m₁.pages_ = m₂.pages_) (index : Nat) :
    m₁.not_hidden index = m₂.not_hidden index := by
  unfold not_hidden; rw [h]

theorem not_hidden_of_getElem? {m : PageManager} {index : Nat} {page : Page}
    (hp : m.pages_[index]? = some page) (hv : page.hidden = false) :
    m.not_hidden index = true := by
  unfold not_hidden; rw [hp]; simp [hv]

/-- C18: on a manager with `n >= 2` pages and the cursor `c` in range, `delete_page(c)`
leaves the `n - 1` other pages; when one of them is visible, `current_index` becomes
`(c + (n - 1) - k) mod (n - 1)` for the least `k` in `[0, n - 2]` whose page at that
position is not hidden, so it is below the new page count and the current page is visible.
The page count is within `max_size()` of the vector (half the `size_t` range). -/
theorem C18_delete_current_page (m : PageManager) (h2 : 2 ≤ m.page_count)
    (hcur : m.current_index_ < m.page_count) (hmax : m.page_count ≤ SIZE_MAX / 2)
    (hvis : ∃ (j : Nat) (page : Page),
      (m.pages_.eraseIdx m.current_index_)[j]? = some page ∧
      page.hidden = false) :
    (m.delete_page m.current_index_).pages_ = m.pages_.eraseIdx m.current_index_ ∧
      (m.delete_page m.current_index_).page_count = m.page_count - 1 ∧
      ∃ k, k ≤ m.page_count - 1 - 1 ∧
        (m.delete_page m.current_index_).not_hidden
            ((m.current_index_ + (m.page_count - 1) - k) % (m.page_count - 1)) = true ∧
        (∀ j, j < k →
          (m.delete_page m.current_index_).not_hidden
            ((m.current_index_ + (m.page_count - 1) - j) % (m.page_count - 1)) = false) ∧
        (m.delete_page m.current_index_).current_index_ =
          (m.current_index_ + (m.page_count - 1) - k) % (m.page_count - 1) ∧
        (m.delete_page m.current_index_).current_index_ <
          (m.delete_page m.current_index_).page_count ∧
        (m.delete_page m.current_index_).not_hidden
          (m.delete_page m.current_index_).current_index_ = true := by
  obtain ⟨hp, _, hc⟩ := delete_page_of_lt m m.current_index_ h2 hcur
  simp only [lt_irrefl, if_false, if_true] at hc
  have hlen : (m.pages_.eraseIdx m.current_index_).length = m.page_count - 1 := by
    rw [List.length_eraseIdx]
    have : m.current_index_ < m.pages_.length := hcur
    simp [this, page_count]
  have hcount : (m.delete_page m.current_index_).page_count = m.page_count - 1 := by
    unfold page_count at hlen ⊢; rw [hp, hlen]
  -- the manager on which `cycle_page` runs
  generalize he : ({ m with pages_ := m.pages_.eraseIdx m.current_index_ } : PageManager) = e
    at hc
  have hep : e.pages_ = m.pages_.eraseIdx m.current_index_ := by rw [← he]
  have hec : e.current_index_ = m.current_index_ := by rw [← he]
  have hen : e.page_count = m.page_count - 1 := by unfold page_count at hlen ⊢; rw [hep, hlen]
  have hnh : ∀ i, (m.delete_page m.current_index_).not_hidden i = e.not_hidden i :=
    fun i => not_hidden_congr (by rw [hp, hep]) i
  have hmode : (cycle_mode.none ||| cycle_mode.backward) &&& cycle_mode.backward ≠ 0 := by
    decide
  have hstart : (if (cycle_mode.none ||| cycle_mode.backward) &&& cycle_mode.none ≠ 0
      then 0 else 1) = 0 := by decide
  have hS : SIZE_MAX / 2 = 2147483647 := by decide
  have hci : ∀ i, i < m.page_count - 1 →
      e.cycle_index (cycle_mode.none ||| cycle_mode.backward) i =
        (m.current_index_ + (m.page_count - 1) - i) % (m.page_count - 1) := by
    intro i hi
    rw [cycle_index_backward_le e _ i hmode (by rw [hen]; omega) (by rw [hen, hec]; omega),
      hen, hec]
    congr 1
    omega
  -- some loop counter reaches the visible page
  obtain ⟨j, page, hj, hjv⟩ := hvis
  have hjlt : j < m.page_count - 1 := by
    rw [← hlen]; exact (List.getElem?_eq_some_iff.1 hj).1
  have hjn : e.not_hidden j = true := not_hidden_of_getElem? (by rw [hep]; exact hj) hjv
  have hex : ∃ k, 0 ≤ k ∧ k < m.page_count - 1 ∧
      e.not_hidden ((m.current_index_ + (m.page_count - 1) - k) % (m.page_count - 1))
        = true := by
    by_cases hle : j ≤ m.current_index_
    · by_cases hfull : m.current_index_ - j < m.page_count - 1
      · refine ⟨m.current_index_ - j, Nat.zero_le _, hfull, ?_⟩
        rcases mod_le_two
            (m.current_index_ + (m.page_count - 1) - (m.current_index_ - j))
            (m.page_count - 1) (by omega) with h | h | h
        · omega
        · have : (m.current_index_ + (m.page_count - 1) - (m.current_index_ - j))
              % (m.page_count - 1) = j := by omega
          rw [this]; exact hjn
        · omega
      · refine ⟨0, Nat.zero_le _, by omega, ?_⟩
        rcases mod_le_two (m.current_index_ + (m.page_count - 1) - 0) (m.page_count - 1)
            (by omega) with h | h | h
        · omega
        · omega
        · have : (m.current_index_ + (m.page_count - 1) - 0) % (m.page_count - 1) = j := by
            omega
          rw [this]; exact hjn
    · refine ⟨m.current_index_ + (m.page_count - 1) - j, Nat.zero_le _, by omega, ?_⟩
      have : m.current_index_ + (m.page_count - 1) -
          (m.current_index_ + (m.page_count - 1) - j) = j := by omega
      rw [this, Nat.mod_eq_of_lt hjlt]; exact hjn
  obtain ⟨k, _, hk, hkv, hleast⟩ :=
    exists_least_counter
      (fun k => e.not_hidden
        ((m.current_index_ + (m.page_count - 1) - k) % (m.page_count - 1)))
      0 (m.page_count - 1) hex
  have hklen : k < e.pages_.length := by
    have : e.pages_.length = m.page_count - 1 := hen
    omega
  have hfound := cycle_page_found e (cycle_mode.none ||| cycle_mode.backward) k hklen
    (by rw [hstart]; exact Nat.zero_le _)
    (by rw [hci k hk]; exact hkv)
    (by
      intro i _ hik
      rw [hci i (by omega)]
      exact hleast i (Nat.zero_le _) hik)
  rw [hci k hk] at hfound
  have hcur' : (m.delete_page m.current_index_).current_index_ =
      (m.current_index_ + (m.page_count - 1) - k) % (m.page_count - 1) := by
    rw [hc, hfound]
  refine ⟨hp, hcount, k, by omega, ?_, ?_, hcur', ?_, ?_⟩
  · rw [hnh]; exact hkv
  · intro i hik
    rw [hnh]; exact hleast i (Nat.zero_le _) hik
  · rw [hcur', hcount]
    exact Nat.mod_lt _ (by omega)
  · rw [hcur', hnh]; exact hkv

/-- Witness of C18: with A, B, hidden B, C and the cursor on index 1, `delete_page(1)`
leaves A, hidden B, C; the page that followed is hidden, so the cursor goes back to A at
index 0. -/
theorem C18_delete_current_page_witness :
    (2 ≤ state_A_B_hiddenB_C.page_count ∧
        state_A_B_hiddenB_C.current_index_ < state_A_B_hiddenB_C.page_count ∧
        state_A_B_hiddenB_C.page_count ≤ SIZE_MAX / 2) ∧
      (state_A_B_hiddenB_C.delete_page 1).pages_ = [page_A, hidden_B, page_C] ∧
      (state_A_B_hiddenB_C.delete_page 1).current_index_ = 0 ∧
      (state_A_B_hiddenB_C.delete_page 1).not_hidden
        (state_A_B_hiddenB_C.delete_page 1).current_index_ = true := by
  have h := C18_delete_current_page state_A_B_hiddenB_C (by decide) (by decide) (by decide)
    ⟨0, page_A, by decide, by decide⟩
  obtain ⟨h1, _, _, _, _, _, _, _, h8⟩ := h
  exact ⟨⟨by decide, by decide, by decide⟩, h1.trans (by decide), by decide, h8⟩

end nspanel_lovelace

namespace nspanel_lovelace

open PageManager

theorem mod_add_then_sub (c k j n : Nat) (hc : c < n) (hk : k < n) (hj : j ≤ k) :
    ((c + k) % n + n - j) % n = (c + (k - j)) % n := by
  have h0 : (c + k) % n < n := Nat.mod_lt _ (by omega)
  rcases mod_le_two (c + k) n (by omega) with h1 | h1 | h1 <;>
    rcases mod_le_two ((c + k) % n + n - j) n (by omega) with h2 | h2 | h2 <;>
    rcases mod_le_two (c + (k - j)) n (by omega) with h3 | h3 | h3 <;>
    omega

theorem mod_sub_then_add (c k j n : Nat) (hc : c < n) (hk : k < n) (hj : j ≤ k) :
    ((c + n - k) % n + j) % n = (c + n - (k - j)) % n := by
  have h0 : (c + n - k) % n < n := Nat.mod_lt _ (by omega)
  rcases mod_le_two (c + n - k) n (by omega) with h1 | h1 | h1 <;>
    rcases mod_le_two ((c + n - k) % n + j) n (by omega) with h2 | h2 | h2 <;>
    rcases mod_le_two (c + n - (k - j)) n (by omega) with h3 | h3 | h3 <;>
    omega

/-- `next_page()` moves to the page of the least successful loop counter. -/
theorem next_page_to (m : PageManager) (k : Nat) (hmax : m.page_count ≤ SIZE_MAX / 2)
    (hcur : m.current_index_ < m.page_count) (hk1 : 1 ≤ k) (hk2 : k < m.page_count)
    (hv : m.not_hidden ((m.current_index_ + k) % m.page_count) = true)
    (hleast : ∀ j, 1 ≤ j → j < k →
      m.not_hidden ((m.current_index_ + j) % m.page_count) = false) :
    m.next_page =
      ({ m with current_index_ := (m.current_index_ + k) % m.page_count },
        m.pages_[(m.current_index_ + k) % m.page_count]?) := by
  have hfw : cycle_mode.forward &&& cycle_mode.backward = 0 := by decide
  have hfs : (if cycle_mode.forward &&& cycle_mode.none ≠ 0 then 0 else 1) = 1 := by decide
  have hci := cycle_index_forward m cycle_mode.forward k hfw hmax hcur hk2
  have hfound := cycle_page_found m cycle_mode.forward k hk2 (by rw [hfs]; exact hk1)
    (by rw [hci]; exact hv)
    (by
      intro i hi hik
      rw [hfs] at hi
      rw [cycle_index_forward m cycle_mode.forward i hfw hmax hcur (by omega)]
      exact hleast i hi hik)
  rw [hci] at hfound
  exact hfound

/-- `previous_page()` moves to the page of the least successful loop counter. -/
theorem previous_page_to (m : PageManager) (k : Nat) (hmax : m.page_count ≤ SIZE_MAX / 2)
    (hcur : m.current_index_ < m.page_count) (hk1 : 1 ≤ k) (hk2 : k < m.page_count)
    (hv : m.not_hidden ((m.current_index_ + m.page_count - k) % m.page_count) = true)
    (hleast : ∀ j, 1 ≤ j → j < k →
      m.not_hidden ((m.current_index_ + m.page_count - j) % m.page_count) = false) :
    m.previous_page =
      ({ m with current_index_ := (m.current_index_ + m.page_count - k) % m.page_count },
        m.pages_[(m.current_index_ + m.page_count - k) % m.page_count]?) := by
  have hbw : cycle_mode.backward &&& cycle_mode.backward ≠ 0 := by decide
  have hbs : (if cycle_mode.backward &&& cycle_mode.none ≠ 0 then 0 else 1) = 1 := by decide
  have hci := cycle_index_backward m cycle_mode.backward k hbw hmax hcur hk2
  have hfound := cycle_page_found m cycle_mode.backward k hk2 (by rw [hbs]; exact hk1)
    (by rw [hci]; exact hv)
    (by
      intro i hi hik
      rw [hbs] at hi
      rw [cycle_index_backward m cycle_mode.backward i hbw hmax hcur (by omega)]
      exact hleast i hi hik)
  rw [hci] at hfound
  exact hfound

/-- `next_page()` stays when every other page is hidden. -/
theorem next_page_stay (m : PageManager) (hmax : m.page_count ≤ SIZE_MAX / 2)
    (hcur : m.current_index_ < m.page_count)
    (hall : ∀ j, 1 ≤ j → j < m.page_count →
      m.not_hidden ((m.current_index_ + j) % m.page_count) = false) :
    m.next_page = (m, m.pages_[m.current_index_]?) := by
  have hfw : cycle_mode.forward &&& cycle_mode.backward = 0 := by decide
  have hfs : (if cycle_mode.forward &&& cycle_mode.none ≠ 0 then 0 else 1) = 1 := by decide
  refine cycle_page_not_found m cycle_mode.forward (isEmpty_eq_false_of_lt hcur) ?_
  intro j hj hjn
  rw [hfs] at hj
  rw [cycle_index_forward m cycle_mode.forward j hfw hmax hcur hjn]
  exact hall j hj hjn

/-- `previous_page()` stays when every other page is hidden. -/
theorem previous_page_stay (m : PageManager) (hmax : m.page_count ≤ SIZE_MAX / 2)
    (hcur : m.current_index_ < m.page_count)
    (hall : ∀ j, 1 ≤ j → j < m.page_count →
      m.not_hidden ((m.current_index_ + m.page_count - j) % m.page_count) = false) :
    m.previous_page = (m, m.pages_[m.current_index_]?) := by
  have hbw : cycle_mode.backward &&& cycle_mode.backward ≠ 0 := by decide
  have hbs : (if cycle_mode.backward &&& cycle_mode.none ≠ 0 then 0 else 1) = 1 := by decide
  refine cycle_page_not_found m cycle_mode.backward (isEmpty_eq_false_of_lt hcur) ?_
  intro j hj hjn
  rw [hbs] at hj
  rw [cycle_index_backward m cycle_mode.backward j hbw hmax hcur hjn]
  exact hall j hj hjn

/-- C20: on a manager whose cursor is in range and whose current page is not hidden,
`next_page()` followed by `previous_page()` gives back the state before the two calls, and
so does `previous_page()` followed by `next_page()`; in particular `current_index` is
restored, whatever the hidden flags of the other pages.  The page count is within
`max_size()` of the vector (half the `size_t` range). -/
theorem C20_next_previous_round_trip (m : PageManager)
    (hmax : m.page_count ≤ SIZE_MAX / 2) (hcur : m.current_index_ < m.page_count)
    (hvis : m.not_hidden m.current_index_ = true) :
    (m.next_page.1.previous_page.1 = m ∧
        m.next_page.1.previous_page.1.current_index_ = m.current_index_) ∧
      (m.previous_page.1.next_page.1 = m ∧
        m.previous_page.1.next_page.1.current_index_ = m.current_index_) := by
  have hpos : 0 < m.page_count := by omega
  have hfwd : m.next_page.1.previous_page.1 = m := by
    by_cases hex : ∃ k, 1 ≤ k ∧ k < m.page_count ∧
        m.not_hidden ((m.current_index_ + k) % m.page_count) = true
    · obtain ⟨k, hk1, hk2, hkv, hleast⟩ :=
        exists_least_counter
          (fun k => m.not_hidden ((m.current_index_ + k) % m.page_count)) 1 m.page_count hex
      rw [next_page_to m k hmax hcur hk1 hk2 hkv hleast]
      have hback : ((m.current_index_ + k) % m.page_count + m.page_count - k) % m.page_count =
          m.current_index_ := by
        rw [mod_add_then_sub _ _ _ _ hcur hk2 (le_refl k), Nat.sub_self, Nat.add_zero]
        exact Nat.mod_eq_of_lt hcur
      have hstep := previous_page_to
        ({ m with current_index_ := (m.current_index_ + k) % m.page_count })
        k hmax (Nat.mod_lt _ hpos) hk1 hk2
        (by
          show m.not_hidden
            (((m.current_index_ + k) % m.page_count + m.page_count - k) % m.page_count) = true
          rw [hback]; exact hvis)
        (by
          intro j hj1 hjk
          show m.not_hidden
            (((m.current_index_ + k) % m.page_count + m.page_count - j) % m.page_count) = false
          rw [mod_add_then_sub _ _ _ _ hcur hk2 (le_of_lt hjk)]
          exact hleast (k - j) (by omega) (by omega))
      rw [hstep]
      show ({ m with current_index_ :=
        ((m.current_index_ + k) % m.page_count + m.page_count - k) % m.page_count } :
          PageManager) = m
      rw [hback]
    · have hall : ∀ j, 1 ≤ j → j < m.page_count →
          m.not_hidden ((m.current_index_ + j) % m.page_count) = false := by
        intro j hj1 hjn
        cases hv : m.not_hidden ((m.current_index_ + j) % m.page_count) with
        | false => rfl
        | true => exact absurd ⟨j, hj1, hjn, hv⟩ hex
      rw [next_page_stay m hmax hcur hall]
      rw [previous_page_stay m hmax hcur]
      intro j hj1 hjn
      have : m.current_index_ + m.page_count - j = m.current_index_ + (m.page_count - j) := by
        omega
      rw [this]
      exact hall (m.page_count - j) (by omega) (by omega)
  have hbwd : m.previous_page.1.next_page.1 = m := by
    by_cases hex : ∃ k, 1 ≤ k ∧ k < m.page_count ∧
        m.not_hidden ((m.current_index_ + m.page_count - k) % m.page_count) = true
    · obtain ⟨k, hk1, hk2, hkv, hleast⟩ :=
        exists_least_counter
          (fun k => m.not_hidden ((m.current_index_ + m.page_count - k) % m.page_count))
          1 m.page_count hex
      rw [previous_page_to m k hmax hcur hk1 hk2 hkv hleast]
      have hback : ((m.current_index_ + m.page_count - k) % m.page_count + k) % m.page_count =
          m.current_index_ := by
        rw [mod_sub_then_add _ _ _ _ hcur hk2 (le_refl k), Nat.sub_self, Nat.sub_zero,
          Nat.add_mod_right]
        exact Nat.mod_eq_of_lt hcur
      have hstep := next_page_to
        ({ m with current_index_ := (m.current_index_ + m.page_count - k) % m.page_count })
        k hmax (Nat.mod_lt _ hpos) hk1 hk2
        (by
          show m.not_hidden
            (((m.current_index_ + m.page_count - k) % m.page_count + k) % m.page_count) = true
          rw [hback]; exact hvis)
        (by
          intro j hj1 hjk
          show m.not_hidden
            (((m.current_index_ + m.page_count - k) % m.page_count + j) % m.page_count) = false
          rw [mod_sub_then_add _ _ _ _ hcur hk2 (le_of_lt hjk)]
          exact hleast (k - j) (by omega) (by omega))
      rw [hstep]
      show ({ m with current_index_ :=
        ((m.current_index_ + m.page_count - k) % m.page_count + k) % m.page_count } :
          PageManager) = m
      rw [hback]
    · have hall : ∀ j, 1 ≤ j → j < m.page_count →
          m.not_hidden ((m.current_index_ + m.page_count - j) % m.page_count) = false := by
        intro j hj1 hjn
        cases hv : m.not_hidden ((m.current_index_ + m.page_count - j) % m.page_count) with
        | false => rfl
        | true => exact absurd ⟨j, hj1, hjn, hv⟩ hex
      rw [previous_page_stay m hmax hcur hall]
      rw [next_page_stay m hmax hcur]
      intro j hj1 hjn
      have : m.current_index_ + j =
          m.current_index_ + m.page_count - (m.page_count - j) := by omega
      rw [this]
      exact hall (m.page_count - j) (by omega) (by omega)
  exact ⟨⟨hfwd, by rw [hfwd]⟩, ⟨hbwd, by rw [hbwd]⟩⟩

/-- Witness of C20: A visible, B hidden, C visible with the cursor on A; forth and back
over the hidden page returns to index 0. -/
theorem C20_next_previous_round_trip_witness :
    (state_A_hiddenB_C.page_count ≤ SIZE_MAX / 2 ∧
        state_A_hiddenB_C.current_index_ < state_A_hiddenB_C.page_count ∧
        state_A_hiddenB_C.not_hidden state_A_hiddenB_C.current_index_ = true) ∧
      state_A_hiddenB_C.next_page.1.current_index_ = 2 ∧
      (state_A_hiddenB_C.next_page.1.previous_page.1 = state_A_hiddenB_C ∧
        state_A_hiddenB_C.next_page.1.previous_page.1.current_index_ =
          state_A_hiddenB_C.current_index_) ∧
      (state_A_hiddenB_C.previous_page.1.next_page.1 = state_A_hiddenB_C ∧
        state_A_hiddenB_C.previous_page.1.next_page.1.current_index_ =
          state_A_hiddenB_C.current_index_) :=
  ⟨⟨by decide, by decide, by decide⟩, by decide,
    (C20_next_previous_round_trip state_A_hiddenB_C (by decide) (by decide) (by decide)).1,
    (C20_next_previous_round_trip state_A_hiddenB_C (by decide) (by decide) (by decide)).2⟩

end nspanel_lovelace
